import Mathlib

/-!
Verification development for the zaryadochka habit-tracking Telegram bot
(src/main.go, the current snapshot).  The SQLite store is shallowly embedded
as lists of rows; calendar days are modelled as integers (ISO date strings
compare exactly like their day numbers), and every handler takes the current
day as an explicit parameter standing for time.Now().
-/

namespace Zaryadochka

/-- A row of the participants table
(user_id PRIMARY KEY, username, chat_id, display_name, joined_at).
The joined_at TIMESTAMP is modelled at day granularity. -/
structure Participant where
  userId : Int
  username : String
  chatId : Int
  displayName : Option String
  joinedAt : Int
deriving Repr, DecidableEq

/-- A row of the daily_completions table
(user_id, completed_at, congrats_message, PRIMARY KEY (user_id, completed_at)). -/
structure Completion where
  userId : Int
  day : Int
  note : String
deriving Repr, DecidableEq

/-- A row of the achievements table
(user_id, achievement_type, achieved_at, PRIMARY KEY (user_id, achievement_type)). -/
structure Achievement where
  userId : Int
  achType : String
  achievedAt : Int
deriving Repr, DecidableEq

/-- A row of the bot_state table
(user_id, chat_id, state, context, PRIMARY KEY (user_id, chat_id)).
The context TEXT column always holds a decimal int64 written by
strconv.FormatInt and read back by strconv.ParseInt, so it is modelled
directly as the integer it denotes. -/
structure BotState where
  userId : Int
  chatId : Int
  state : String
  context : Int
deriving Repr, DecidableEq

/-- A row of the pending_joins table (user_id PRIMARY KEY, chat_id). -/
structure PendingJoin where
  userId : Int
  chatId : Int
deriving Repr, DecidableEq

/-- The whole SQLite database: one list of rows per table created by initDB. -/
structure DB where
  participants : List Participant
  completions : List Completion
  achievements : List Achievement
  botState : List BotState
  pendingJoins : List PendingJoin
deriving Repr, DecidableEq

/-- The freshly created database: all five tables empty. -/
def emptyDB : DB := ⟨[], [], [], [], []⟩

/-- SELECT EXISTS(SELECT 1 FROM daily_completions WHERE user_id = ? AND completed_at = ?). -/
def hasCompleted (db : DB) (u d : Int) : Bool :=
  db.completions.any fun c => c.userId == u && c.day == d

/-- SELECT EXISTS(SELECT 1 FROM participants WHERE user_id = ?). -/
def userExists (db : DB) (u : Int) : Bool :=
  db.participants.any fun p => p.userId == u

/-- SELECT EXISTS(SELECT 1 FROM achievements WHERE user_id = ? AND achievement_type = ?). -/
def hasAchievement (db : DB) (u : Int) (t : String) : Bool :=
  db.achievements.any fun a => a.userId == u && a.achType == t

/-- SELECT chat_id FROM participants WHERE user_id = ? (also standing for the
name lookup on the same table and key, which succeeds and fails together
with it).  QueryRow returns the first matching row. -/
def lookupChatId (db : DB) (u : Int) : Option Int :=
  (db.participants.find? fun p => p.userId == u).map fun p => p.chatId

/-- The backward day-by-day walk shared by getIndividualStreak and
getConsecutiveCompletionDays: starting at day d and going backwards, count
consecutive days satisfying p.  The Go loop is unbounded; here it carries
fuel, and the fuel used below (streakFuel) provably exceeds any possible
run, so the translation is exact. -/
def walkBack (p : Int → Bool) : Int → Nat → Nat
  | _, 0 => 0
  | d, f + 1 => if p d then walkBack p (d - 1) f + 1 else 0

/-- Fuel for the backward walks.  Every day counted by either walk carries at
least one completion record on a distinct day, so no run is longer than the
completions table, and this fuel is never exhausted. -/
def streakFuel (db : DB) : Nat :=
  db.completions.length + 1

/-- getIndividualStreak: walk backwards from yesterday counting consecutive
completed days, then add 1 if today is completed. -/
def getIndividualStreak (db : DB) (u today : Int) : Nat :=
  walkBack (fun d => hasCompleted db u d) (today - 1) (streakFuel db) +
    (if hasCompleted db u today then 1 else 0)

/-- SELECT ... FROM participants WHERE joined_at <= ?: joined_at is always a
full CURRENT_TIMESTAMP text of shape YYYY-MM-DD HH:MM:SS (every insert path
omits the column), and SQLite compares it with the bound date string
YYYY-MM-DD for day d lexicographically, so the SQL predicate holds exactly
when the join day is strictly before d — a participant who joined on day d
itself does not satisfy it. -/
def eligibleParticipants (db : DB) (d : Int) : List Participant :=
  db.participants.filter fun p => decide (p.joinedAt < d)

/-- SELECT COUNT(*) FROM participants WHERE joined_at <= ?. -/
def totalParticipantsOn (db : DB) (d : Int) : Nat :=
  (eligibleParticipants db d).length

/-- The distinct user ids having a completion on day d and belonging to the
set of participants joined on or before d (the subquery of the COUNT). -/
def completedEligible (db : DB) (d : Int) : List Int :=
  (((db.completions.filter fun c => c.day == d).map fun c => c.userId).dedup).filter
    fun u => (eligibleParticipants db d).any fun p => p.userId == u

/-- SELECT COUNT(DISTINCT user_id) FROM daily_completions WHERE completed_at = ?
AND user_id IN (SELECT user_id FROM participants WHERE joined_at <= ?). -/
def completedEligibleCount (db : DB) (d : Int) : Nat :=
  (completedEligible db d).length

/-- One step of the group walk: the loop in getConsecutiveCompletionDays
breaks when completedCount != totalParticipants || totalParticipants == 0,
so a day counts iff the two counts agree and at least one participant had
joined by then. -/
def groupDayComplete (db : DB) (d : Int) : Bool :=
  completedEligibleCount db d == totalParticipantsOn db d &&
    totalParticipantsOn db d != 0

/-- The base part of getConsecutiveCompletionDays: the backward walk from
yesterday over group-complete days (its last visited day is
today minus the returned count). -/
def groupBaseStreak (db : DB) (today : Int) : Nat :=
  walkBack (groupDayComplete db) (today - 1) (streakFuel db)

/-- getConsecutiveCompletionDays: backward walk from yesterday over
group-complete days, plus 1 if today is group-complete. -/
def getConsecutiveCompletionDays (db : DB) (today : Int) : Nat :=
  groupBaseStreak db today + (if groupDayComplete db today then 1 else 0)

/-- A congratulatory notification emitted to a chat by
checkAndRecordAchievements. -/
inductive Notif where
  | achievement100 (chatId : Int)
  | achievement365 (chatId : Int)
deriving Repr, DecidableEq

/-- Whether a notification is the 100-days congratulation. -/
def Notif.is100 : Notif → Bool
  | .achievement100 _ => true
  | .achievement365 _ => false

/-- Result state of checkAndRecordAchievements: the database after all
executed statements, the notifications sent, and whether the Go function
returned an error (a failed participants lookup while sending the
congratulation; the achievement INSERT preceding it is not rolled back). -/
structure AchOut where
  db : DB
  notifs : List Notif
  err : Bool
deriving Repr, DecidableEq

/-- One tier of checkAndRecordAchievements, already under the streak
threshold test: skip if the achievement exists, otherwise INSERT it with
achieved_at = date of today and send the congratulation to the chat bound
to the user (failing if the user has no participants row). -/
def checkTier (db : DB) (u : Int) (t : String) (today : Int)
    (mk : Int → Notif) : AchOut :=
  if hasAchievement db u t then ⟨db, [], false⟩
  else
    match lookupChatId { db with achievements := db.achievements ++ [⟨u, t, today⟩] } u with
    | none => ⟨{ db with achievements := db.achievements ++ [⟨u, t, today⟩] }, [], true⟩
    | some chat =>
      ⟨{ db with achievements := db.achievements ++ [⟨u, t, today⟩] }, [mk chat], false⟩

/-- The 100_days branch of checkAndRecordAchievements: runs only when
streak >= 100. -/
def achTier100 (db : DB) (u streak today : Int) : AchOut :=
  if streak ≥ 100 then checkTier db u "100_days" today Notif.achievement100
  else ⟨db, [], false⟩

/-- The 365_days branch of checkAndRecordAchievements: runs only when
streak >= 365. -/
def achTier365 (db : DB) (u streak today : Int) : AchOut :=
  if streak ≥ 365 then checkTier db u "365_days" today Notif.achievement365
  else ⟨db, [], false⟩

/-- checkAndRecordAchievements(userID, streak): the 100_days tier, then,
unless the first tier returned an error, the 365_days tier on the state the
first tier left behind. -/
def checkAndRecordAchievements (db : DB) (u : Int) (streak : Int)
    (today : Int) : AchOut :=
  if (achTier100 db u streak today).err then achTier100 db u streak today
  else
    ⟨(achTier365 (achTier100 db u streak today).db u streak today).db,
      (achTier100 db u streak today).notifs ++
        (achTier365 (achTier100 db u streak today).db u streak today).notifs,
      (achTier365 (achTier100 db u streak today).db u streak today).err⟩

/-- Outcome of the completion-marking handlers. -/
inductive CompleteResult where
  | alreadyCompleted
  | ok
  | storeError
deriving Repr, DecidableEq

/-- Result of handleCompleteChallenge / handleMarkYesterday. -/
structure CompleteOut where
  db : DB
  res : CompleteResult
  notifs : List Notif
deriving Repr, DecidableEq

/-- The database after inserting the completion row (u, day, note). -/
def completeFresh (db : DB) (u day : Int) (note : String) : DB :=
  { db with completions := db.completions ++ [⟨u, day, note⟩] }

/-- The achievement check run by the completion handlers right after their
INSERT: the row went in on insertDay, and the streak passed to
checkAndRecordAchievements is recomputed as of today. -/
def achAfterInsert (db : DB) (u insertDay today : Int) (note : String) : AchOut :=
  checkAndRecordAchievements (completeFresh db u insertDay note) u
    (getIndividualStreak (completeFresh db u insertDay note) u today) today

/-- handleCompleteChallenge: check-then-insert for (user, today), with the
randomly chosen congrats message passed in as note; on a fresh completion
the current streak is recomputed and checkAndRecordAchievements runs, whose
error the handler propagates. -/
def handleCompleteChallenge (db : DB) (u today : Int) (note : String) :
    CompleteOut :=
  if hasCompleted db u today then ⟨db, .alreadyCompleted, []⟩
  else
    ⟨(achAfterInsert db u today today note).db,
      if (achAfterInsert db u today today note).err then .storeError else .ok,
      (achAfterInsert db u today today note).notifs⟩

/-- handleMarkYesterday: same check-then-insert for (user, today - 1);
achievement-check errors are only logged, never returned. -/
def handleMarkYesterday (db : DB) (u today : Int) (note : String) :
    CompleteOut :=
  if hasCompleted db u (today - 1) then ⟨db, .alreadyCompleted, []⟩
  else
    ⟨(achAfterInsert db u (today - 1) today note).db, .ok,
      (achAfterInsert db u (today - 1) today note).notifs⟩

/-- Outcome of handleUndoComplete. -/
inductive UndoResult where
  | nothingToUndo
  | ok
deriving Repr, DecidableEq

/-- handleUndoComplete: if no completion exists for (user, today) report
that there is nothing to undo, otherwise DELETE the record. -/
def handleUndoComplete (db : DB) (u today : Int) : DB × UndoResult :=
  if hasCompleted db u today then
    ({ db with completions :=
        db.completions.filter (fun c => !(c.userId == u && c.day == today)) },
      .ok)
  else (db, .nothingToUndo)

/-- Outcome of SetUserStreak. -/
inductive SetStreakResult where
  | unknownUser
  | ok
  | storeError
deriving Repr, DecidableEq

/-- Result of SetUserStreak. -/
structure SetOut where
  db : DB
  res : SetStreakResult
  notifs : List Notif
deriving Repr, DecidableEq

/-- The insertion loop of SetUserStreak (for i := streakDays-1; i >= 0; i--
insert day now-i), as the list of days in insertion order:
today - n + 1, ..., today. -/
def setStreakDays (n : Nat) (today : Int) : List Int :=
  (List.range n).map fun (j : Nat) => today - n + 1 + (j : Int)

/-- Plain INSERTs of one completion per listed day; a primary-key conflict
aborts the loop with the rows inserted so far kept (no transaction). -/
def insertCompletions (u : Int) (note : String) : DB → List Int → DB × Bool
  | db, [] => (db, true)
  | db, d :: rest =>
    if hasCompleted db u d then (db, false)
    else
      insertCompletions u note
        { db with completions := db.completions ++ [⟨u, d, note⟩] } rest

/-- The DELETE step of SetUserStreak: remove the user's completions with
date(now, -streakDays days) <= completed_at <= date(now), i.e. the
streakDays+1 days today - streakDays .. today. -/
def setStreakCleared (db : DB) (u : Int) (n : Nat) (today : Int) : DB :=
  { db with completions :=
      db.completions.filter fun c =>
        !(c.userId == u && decide (today - n ≤ c.day) && decide (c.day ≤ today)) }

/-- The insertion loop of SetUserStreak run on the cleared window. -/
def setStreakInserted (db : DB) (u : Int) (n : Nat) (today : Int)
    (note : String) : DB × Bool :=
  insertCompletions u note (setStreakCleared db u n today) (setStreakDays n today)

/-- The achievement check at the end of SetUserStreak, on the state after
the inserts, with the freshly recomputed streak. -/
def achAfterSet (db : DB) (u : Int) (n : Nat) (today : Int)
    (note : String) : AchOut :=
  checkAndRecordAchievements (setStreakInserted db u n today note).1 u
    (getIndividualStreak (setStreakInserted db u n today note).1 u today) today

/-- SetUserStreak(userID, streakDays): require the user to exist, DELETE the
user's completions in the window today - streakDays .. today, re-INSERT one
completion for each of the streakDays days today - streakDays + 1 .. today,
then recompute the streak and run the achievement check.  Call sites only
pass non-negative day counts, so streakDays is a Nat.  The per-day random
congrats message is abstracted to the single note argument. -/
def SetUserStreak (db : DB) (u : Int) (n : Nat) (today : Int)
    (note : String) : SetOut :=
  if !userExists db u then ⟨db, .unknownUser, []⟩
  else if !(setStreakInserted db u n today note).2 then
    ⟨(setStreakInserted db u n today note).1, .storeError, []⟩
  else
    ⟨(achAfterSet db u n today note).db,
      if (achAfterSet db u n today note).err then .storeError else .ok,
      (achAfterSet db u n today note).notifs⟩

/-- handleJoinChallenge: INSERT OR REPLACE INTO pending_joins (user_id,
chat_id), the table whose primary key is user_id alone. -/
def handleJoinChallenge (db : DB) (u chat : Int) : DB :=
  { db with pendingJoins :=
      (db.pendingJoins.filter (fun pj => !(pj.userId == u))) ++ [⟨u, chat⟩] }

/-- handleNameResponse: INSERT OR REPLACE INTO participants (user_id,
username, chat_id, display_name) — SQLite replaces the whole row, and the
unlisted joined_at column takes its DEFAULT CURRENT_TIMESTAMP again, i.e.
the day of this re-registration — then DELETE FROM pending_joins for the
user. -/
def handleNameResponse (db : DB) (u chat : Int) (username displayName : String)
    (now : Int) : DB :=
  { db with
    participants :=
      (db.participants.filter (fun p => !(p.userId == u))) ++
        [⟨u, username, chat, some displayName, now⟩],
    pendingJoins := db.pendingJoins.filter (fun pj => !(pj.userId == u)) }

/-- handleCustomStreakCallback: INSERT OR REPLACE INTO bot_state a
waiting_custom_streak row keyed by (pressing user, chat), whose context is
the target user chosen for the streak edit. -/
def handleCustomStreakCallback (db : DB) (u chat target : Int) : DB :=
  { db with botState :=
      (db.botState.filter (fun s => !(s.userId == u && s.chatId == chat))) ++
        [⟨u, chat, "waiting_custom_streak", target⟩] }

/-- SELECT state, context FROM bot_state WHERE user_id = ? AND chat_id = ?
AND state = 'waiting_custom_streak'. -/
def findCustomStreakState (db : DB) (u chat : Int) : Option BotState :=
  db.botState.find? fun s =>
    s.userId == u && s.chatId == chat && s.state == "waiting_custom_streak"

/-- Outcome of handleCustomStreakInput. -/
inductive CustomStreakResult where
  | noPending
  | invalidInput
  | setStreakError
  | ok
deriving Repr, DecidableEq

/-- Result of handleCustomStreakInput. -/
structure CustomOut where
  db : DB
  res : CustomStreakResult
  notifs : List Notif
deriving Repr, DecidableEq

/-- Accumulator loop of the decimal parser: consumes digits, fails on any
other character. -/
def parseDigitsAux : List Char → Nat → Option Nat
  | [], acc => some acc
  | c :: rest, acc =>
    if c.isDigit then parseDigitsAux rest (acc * 10 + (c.toNat - 48))
    else none

/-- A non-empty all-digit character list as a number. -/
def parseNatChars (cs : List Char) : Option Nat :=
  if cs.isEmpty then none else parseDigitsAux cs 0

/-- The signed decimal numeral: an optional sign followed by one or more
decimal digits. -/
def parseIntChars : List Char → Option Int
  | '-' :: rest => (parseNatChars rest).map fun m => -(m : Int)
  | '+' :: rest => (parseNatChars rest).map fun m => (m : Int)
  | cs => (parseNatChars cs).map fun m => (m : Int)

/-- The smallest int64 value; strconv.Atoi parses into the platform int,
which is int64 here. -/
def int64Min : Int := -9223372036854775808

/-- The largest int64 value. -/
def int64Max : Int := 9223372036854775807

/-- unicode.IsSpace, the predicate strings.TrimSpace trims by: the Unicode
White_Space code points. -/
def goIsSpace (c : Char) : Bool :=
  (9 ≤ c.toNat && c.toNat ≤ 13) || c.toNat == 32 || c.toNat == 133 ||
    c.toNat == 160 || c.toNat == 0x1680 ||
    (0x2000 ≤ c.toNat && c.toNat ≤ 0x200A) || c.toNat == 0x2028 ||
    c.toNat == 0x2029 || c.toNat == 0x202F || c.toNat == 0x3000

/-- strings.TrimSpace: strip Unicode whitespace from both ends. -/
def trimChars (cs : List Char) : List Char :=
  ((cs.dropWhile goIsSpace).reverse.dropWhile goIsSpace).reverse

/-- strconv.Atoi(strings.TrimSpace(s)), over the string's characters: a
well-formed numeral whose value does not fit in int64 makes Atoi return
ErrRange, which the caller treats like any other parse failure. -/
def atoiTrim (s : String) : Option Int :=
  match parseIntChars (trimChars s.data) with
  | none => none
  | some v => if v < int64Min then none else if int64Max < v then none else some v

/-- DELETE FROM bot_state WHERE user_id = ? AND chat_id = ?. -/
def clearConvState (db : DB) (u chat : Int) : DB :=
  { db with botState :=
      db.botState.filter fun s => !(s.userId == u && s.chatId == chat) }

/-- handleCustomStreakInput: ignore when no waiting_custom_streak state is
pending for (user, chat); re-prompt, keeping the state, when
strconv.Atoi(TrimSpace(text)) fails or yields a negative number; otherwise
invoke
SetUserStreak on the stored target user and, if it succeeded, DELETE the
bot_state row for (user, chat). -/
def handleCustomStreakInput (db : DB) (u chat : Int) (text : String)
    (today : Int) (note : String) : CustomOut :=
  match findCustomStreakState db u chat with
  | none => ⟨db, .noPending, []⟩
  | some st =>
    match atoiTrim text with
    | none => ⟨db, .invalidInput, []⟩
    | some days =>
      if days < 0 then ⟨db, .invalidInput, []⟩
      else if (SetUserStreak db st.context days.toNat today note).res != .ok then
        ⟨(SetUserStreak db st.context days.toNat today note).db, .setStreakError,
          (SetUserStreak db st.context days.toNat today note).notifs⟩
      else
        ⟨clearConvState (SetUserStreak db st.context days.toNat today note).db u chat,
          .ok, (SetUserStreak db st.context days.toNat today note).notifs⟩

/-- Whether a pending join row exists for the user in the chat. -/
def hasPendingJoin (db : DB) (u chat : Int) : Bool :=
  db.pendingJoins.any fun pj => pj.userId == u && pj.chatId == chat

/-- Whether a waiting_custom_streak conversation is pending for (user, chat). -/
def hasCustomPending (db : DB) (u chat : Int) : Bool :=
  (findCustomStreakState db u chat).isSome

/-- Holds when two database states differ at most in the achievements table;
checkAndRecordAchievements only writes that table. -/
def SameExceptAch (db1 db2 : DB) : Prop :=
  db1.participants = db2.participants ∧ db1.completions = db2.completions ∧
    db1.botState = db2.botState ∧ db1.pendingJoins = db2.pendingJoins

/-- Database states reachable by the modelled operations from the freshly
initialised (empty) database. -/
inductive Reachable : DB → Prop where
  | init : Reachable emptyDB
  | join (db : DB) (u chat : Int) : Reachable db →
      Reachable (handleJoinChallenge db u chat)
  | name (db : DB) (u chat : Int) (un dn : String) (now : Int) : Reachable db →
      Reachable (handleNameResponse db u chat un dn now)
  | complete (db : DB) (u T : Int) (note : String) : Reachable db →
      Reachable (handleCompleteChallenge db u T note).db
  | markYesterday (db : DB) (u T : Int) (note : String) : Reachable db →
      Reachable (handleMarkYesterday db u T note).db
  | undo (db : DB) (u T : Int) : Reachable db →
      Reachable (handleUndoComplete db u T).1
  | setStreak (db : DB) (u : Int) (n : Nat) (T : Int) (note : String) :
      Reachable db → Reachable (SetUserStreak db u n T note).db
  | customCb (db : DB) (u chat target : Int) : Reachable db →
      Reachable (handleCustomStreakCallback db u chat target)
  | customInput (db : DB) (u chat : Int) (text : String) (T : Int)
      (note : String) : Reachable db →
      Reachable (handleCustomStreakInput db u chat text T note).db

/-- Fixture: completion rows for one user on the given days. -/
def completionsFor (u : Int) (ds : List Int) : List Completion :=
  ds.map fun d => ⟨u, d, "note"⟩

/-- Fixture for the individual-streak scenario: one participant, joined on
day 1, completed days 1-5 and day 7, skipped day 6. -/
def scenarioIndividualDB : DB :=
  ⟨[⟨1, "alice", 10, none, 1⟩], completionsFor 1 [1, 2, 3, 4, 5, 7], [], [], []⟩

/-- Fixture for the group-streak scenario: participants A and B, both joined
on day 1; A completed days 1-10, B only days 1-9. -/
def scenarioGroupDB : DB :=
  ⟨[⟨1, "alice", 10, none, 1⟩, ⟨2, "bob", 10, none, 1⟩],
    completionsFor 1 [1, 2, 3, 4, 5, 6, 7, 8, 9, 10] ++
      completionsFor 2 [1, 2, 3, 4, 5, 6, 7, 8, 9],
    [], [], []⟩

/-- Fixture for the re-registration scenario: one participant whose first
join happened on day 1. -/
def scenarioRejoinDB : DB :=
  ⟨[⟨1, "alice", 10, none, 1⟩], [], [], [], []⟩

/-- Fixture with a late joiner: user 1 joined on day 4 and completed days
5-7; user 2 joined on day 5 and completed days 6-7.  Day 5's group check
excludes user 2, who joined that same day, so the group walk runs through
day 5 although user 2 has no completion there. -/
def scenarioLateJoinDB : DB :=
  ⟨[⟨1, "quentin", 10, none, 4⟩, ⟨2, "paula", 10, none, 5⟩],
    completionsFor 1 [5, 6, 7] ++ completionsFor 2 [6, 7], [], [], []⟩

/-- PRIMARY KEY (user_id, completed_at) on daily_completions. -/
def CompUnique (db : DB) : Prop :=
  (db.completions.map fun c => (c.userId, c.day)).Nodup

/-- PRIMARY KEY user_id on participants. -/
def PartUnique (db : DB) : Prop :=
  (db.participants.map fun p => p.userId).Nodup

/-- PRIMARY KEY (user_id, achievement_type) on achievements. -/
def AchUnique (db : DB) : Prop :=
  (db.achievements.map fun a => (a.userId, a.achType)).Nodup

/-- PRIMARY KEY (user_id, chat_id) on bot_state together with
PRIMARY KEY user_id on pending_joins: per conversation kind, keys are
unique. -/
def ConvUnique (db : DB) : Prop :=
  (db.botState.map fun s => (s.userId, s.chatId)).Nodup ∧
    (db.pendingJoins.map fun pj => pj.userId).Nodup

/-! ### Membership restatements of the SQL EXISTS queries -/

theorem hasCompleted_iff {db : DB} {u d : Int} :
    hasCompleted db u d = true ↔
      ∃ c ∈ db.completions, c.userId = u ∧ c.day = d := by
  simp [hasCompleted, List.any_eq_true, Bool.and_eq_true, beq_iff_eq]

theorem hasAchievement_iff {db : DB} {u : Int} {t : String} :
    hasAchievement db u t = true ↔
      ∃ a ∈ db.achievements, a.userId = u ∧ a.achType = t := by
  simp [hasAchievement, List.any_eq_true, Bool.and_eq_true, beq_iff_eq]

theorem mem_eligibleParticipants {db : DB} {d : Int} {q : Participant} :
    q ∈ eligibleParticipants db d ↔ q ∈ db.participants ∧ q.joinedAt < d := by
  simp [eligibleParticipants, List.mem_filter, decide_eq_true_eq]

theorem mem_completedEligible {db : DB} {d x : Int} :
    x ∈ completedEligible db d ↔
      (∃ c ∈ db.completions, c.day = d ∧ c.userId = x) ∧
        ∃ q ∈ eligibleParticipants db d, q.userId = x := by
  simp only [completedEligible, List.mem_filter, List.mem_dedup, List.mem_map,
    List.any_eq_true, beq_iff_eq]
  aesop

/-! ### The backward walk -/

theorem walkBack_le (p : Int → Bool) : ∀ (f : Nat) (d : Int), walkBack p d f ≤ f
  | 0, _ => Nat.le_refl 0
  | f + 1, d => by
    simp only [walkBack]
    by_cases hp : p d
    · simpa [hp] using walkBack_le p f (d - 1)
    · simp [hp]

theorem walkBack_sound (p : Int → Bool) :
    ∀ (f : Nat) (d : Int) (i : Nat), i < walkBack p d f → p (d - i) = true := by
  intro f
  induction f with
  | zero => intro d i h; simp [walkBack] at h
  | succ f ih =>
    intro d i h
    simp only [walkBack] at h
    by_cases hp : p d
    · rw [if_pos hp] at h
      match i with
      | 0 => simpa using hp
      | j + 1 =>
        have hj : j < walkBack p (d - 1) f := by omega
        have := ih (d - 1) j hj
        have e : d - ((j + 1 : Nat) : Int) = d - 1 - (j : Int) := by push_cast; ring
        rwa [e]
    · rw [if_neg hp] at h; omega

theorem walkBack_ge (p : Int → Bool) :
    ∀ (k f : Nat) (d : Int), k ≤ f → (∀ i : Nat, i < k → p (d - i) = true) →
      k ≤ walkBack p d f := by
  intro k
  induction k with
  | zero => intro f d _ _; exact Nat.zero_le _
  | succ k ih =>
    intro f d hkf hrun
    match f, hkf with
    | f + 1, hkf =>
      have hp : p d = true := by simpa using hrun 0 (Nat.succ_pos k)
      simp only [walkBack, if_pos hp]
      have : k ≤ walkBack p (d - 1) f := by
        refine ih f (d - 1) (by omega) ?_
        intro i hi
        have := hrun (i + 1) (by omega)
        have e : d - ((i + 1 : Nat) : Int) = d - 1 - (i : Int) := by push_cast; ring
        rwa [e] at this
      omega

theorem walkBack_eq (p : Int → Bool) (d : Int) (f k : Nat) (hk : k < f)
    (hrun : ∀ i : Nat, i < k → p (d - i) = true)
    (hgap : p (d - k) = false) : walkBack p d f = k := by
  refine Nat.le_antisymm ?_ (walkBack_ge p k f d (Nat.le_of_lt hk) hrun)
  by_contra h
  push_neg at h
  have := walkBack_sound p f d k h
  rw [hgap] at this
  exact Bool.false_ne_true this

/-- Any backward run of days satisfying p is no longer than a list that
witnesses each p-day with an element carrying that day. -/
theorem run_le_length {α : Type} (L : List α) (dayOf : α → Int) (p : Int → Bool)
    (hW : ∀ x : Int, p x = true → ∃ c ∈ L, dayOf c = x)
    (k : Nat) (d : Int) (hrun : ∀ i : Nat, i < k → p (d - i) = true) :
    k ≤ L.length := by
  have hinj : Function.Injective fun i : Nat => d - (i : Int) := by
    intro a b hab
    simp only at hab
    omega
  have hnodup : ((List.range k).map fun i : Nat => d - (i : Int)).Nodup :=
    (List.nodup_range k).map hinj
  have hsub : ((List.range k).map fun i : Nat => d - (i : Int)) ⊆ L.map dayOf := by
    intro x hx
    rw [List.mem_map] at hx
    obtain ⟨i, hi, rfl⟩ := hx
    rw [List.mem_range] at hi
    obtain ⟨c, hc, hcd⟩ := hW _ (hrun i hi)
    exact List.mem_map.mpr ⟨c, hc, hcd⟩
  have := (hnodup.subperm hsub).length_le
  simpa using this

/-- Every individually completed day is witnessed in the completions table. -/
theorem hasCompleted_witness (db : DB) (u : Int) :
    ∀ x : Int, hasCompleted db u x = true → ∃ c ∈ db.completions, c.day = x := by
  intro x hx
  obtain ⟨c, hc, _, hcd⟩ := hasCompleted_iff.mp hx
  exact ⟨c, hc, hcd⟩

/-- Every group-complete day is witnessed in the completions table. -/
theorem groupDayComplete_witness (db : DB) :
    ∀ x : Int, groupDayComplete db x = true → ∃ c ∈ db.completions, c.day = x := by
  intro x hx
  simp only [groupDayComplete, Bool.and_eq_true, beq_iff_eq, bne_iff_ne] at hx
  obtain ⟨hcount, hne⟩ := hx
  have hlen : completedEligible db x ≠ [] := by
    intro hnil
    rw [completedEligibleCount, hnil] at hcount
    exact hne hcount.symm
  obtain ⟨y, hy⟩ := List.exists_mem_of_ne_nil _ hlen
  obtain ⟨⟨c, hc, hcd, _⟩, _⟩ := mem_completedEligible.mp hy
  exact ⟨c, hc, hcd⟩

/-- What a day's group-completeness check means, given the primary key on
participants: the two SQL counts agree and are positive exactly when some
participant had joined by d and every such participant completed d. -/
theorem groupDayComplete_iff {db : DB} (hP : PartUnique db) (d : Int) :
    groupDayComplete db d = true ↔
      eligibleParticipants db d ≠ [] ∧
        ∀ q ∈ eligibleParticipants db d, hasCompleted db q.userId d = true := by
  have hCnodup : (completedEligible db d).Nodup :=
    (List.nodup_dedup _).filter _
  have hEnodup : ((eligibleParticipants db d).map fun q => q.userId).Nodup := by
    refine List.Nodup.sublist ?_ hP
    exact (List.filter_sublist _).map _
  have hCsub : completedEligible db d ⊆
      (eligibleParticipants db d).map fun q => q.userId := by
    intro x hx
    obtain ⟨_, q, hq, hqu⟩ := mem_completedEligible.mp hx
    exact List.mem_map.mpr ⟨q, hq, hqu⟩
  simp only [groupDayComplete, Bool.and_eq_true, beq_iff_eq, bne_iff_ne]
  constructor
  · rintro ⟨hcount, hne⟩
    have hlen : (completedEligible db d).length =
        ((eligibleParticipants db d).map fun q => q.userId).length := by
      rw [List.length_map]
      exact hcount
    have hperm := (hCnodup.subperm hCsub).perm_of_length_le (Nat.le_of_eq hlen.symm)
    constructor
    · intro hnil
      rw [totalParticipantsOn, hnil] at hne
      exact hne rfl
    · intro q hq
      have hmem : q.userId ∈ completedEligible db d :=
        hperm.symm.subset (List.mem_map.mpr ⟨q, hq, rfl⟩)
      obtain ⟨⟨c, hc, hcd, hcu⟩, _⟩ := mem_completedEligible.mp hmem
      exact hasCompleted_iff.mpr ⟨c, hc, hcu, hcd⟩
  · rintro ⟨hne, hall⟩
    have hEsub : ((eligibleParticipants db d).map fun q => q.userId) ⊆
        completedEligible db d := by
      intro x hx
      obtain ⟨q, hq, rfl⟩ := List.mem_map.mp hx
      obtain ⟨c, hc, hcu, hcd⟩ := hasCompleted_iff.mp (hall q hq)
      exact mem_completedEligible.mpr ⟨⟨c, hc, hcd, hcu⟩, q, hq, rfl⟩
    have hperm := (hCnodup.subperm hCsub).antisymm (hEnodup.subperm hEsub)
    constructor
    · rw [completedEligibleCount, totalParticipantsOn, hperm.length_eq,
        List.length_map]
    · intro h0
      rw [totalParticipantsOn] at h0
      exact hne (List.length_eq_zero.mp h0)

/-- The individual streak, characterised: if the k days before T are exactly
the maximal consecutive completed run (all completed, day T-1-k not), the
streak as of T is k plus 1 when T itself is completed. -/
theorem getIndividualStreak_eq_run (db : DB) (u T : Int) (k : Nat)
    (hrun : ∀ i : Nat, i < k → hasCompleted db u (T - 1 - i) = true)
    (hgap : hasCompleted db u (T - 1 - k) = false) :
    getIndividualStreak db u T = k + (if hasCompleted db u T then 1 else 0) := by
  have hbound : k ≤ db.completions.length :=
    run_le_length db.completions (fun c => c.day) (fun d => hasCompleted db u d)
      (hasCompleted_witness db u) k (T - 1) hrun
  unfold getIndividualStreak
  rw [walkBack_eq (fun d => hasCompleted db u d) (T - 1) (streakFuel db) k
    (by unfold streakFuel; omega) hrun hgap]

/-- The group streak, characterised the same way over group-complete days. -/
theorem getConsecutiveCompletionDays_eq_run (db : DB) (T : Int) (k : Nat)
    (hrun : ∀ i : Nat, i < k → groupDayComplete db (T - 1 - i) = true)
    (hgap : groupDayComplete db (T - 1 - k) = false) :
    getConsecutiveCompletionDays db T =
      k + (if groupDayComplete db T then 1 else 0) := by
  have hbound : k ≤ db.completions.length :=
    run_le_length db.completions (fun c => c.day) (groupDayComplete db)
      (groupDayComplete_witness db) k (T - 1) hrun
  unfold getConsecutiveCompletionDays groupBaseStreak
  rw [walkBack_eq (groupDayComplete db) (T - 1) (streakFuel db) k
    (by unfold streakFuel; omega) hrun hgap]

/-! ### Support lemmas about the achievement engine -/

theorem sameExceptAch_refl (db : DB) : SameExceptAch db db := ⟨rfl, rfl, rfl, rfl⟩

theorem sameExceptAch_trans {a b c : DB} (h1 : SameExceptAch a b)
    (h2 : SameExceptAch b c) : SameExceptAch a c :=
  ⟨h1.1.trans h2.1, h1.2.1.trans h2.2.1, h1.2.2.1.trans h2.2.2.1,
    h1.2.2.2.trans h2.2.2.2⟩

theorem userExists_congr {db1 db2 : DB} (h : db1.participants = db2.participants)
    (u : Int) : userExists db1 u = userExists db2 u := by
  unfold userExists; rw [h]

theorem lookupChatId_congr {db1 db2 : DB} (h : db1.participants = db2.participants)
    (u : Int) : lookupChatId db1 u = lookupChatId db2 u := by
  unfold lookupChatId; rw [h]

theorem lookupChatId_isSome {db : DB} {u : Int} (h : userExists db u = true) :
    (lookupChatId db u).isSome = true := by
  unfold userExists at h
  rw [List.any_eq_true] at h
  obtain ⟨p, hp, hpu⟩ := h
  unfold lookupChatId
  cases hf : db.participants.find? fun p => p.userId == u with
  | none => exact absurd hpu (List.find?_eq_none.mp hf p hp)
  | some q => rfl

theorem checkTier_skip {db : DB} {u : Int} {t : String} {T : Int}
    {mk : Int → Notif} (h : hasAchievement db u t = true) :
    checkTier db u t T mk = ⟨db, [], false⟩ := by
  unfold checkTier; rw [if_pos h]

theorem checkTier_insert {db : DB} {u : Int} {t : String} {T : Int}
    {mk : Int → Notif} {ch : Int} (h : hasAchievement db u t = false)
    (hl : lookupChatId db u = some ch) :
    checkTier db u t T mk =
      ⟨{ db with achievements := db.achievements ++ [⟨u, t, T⟩] },
        [mk ch], false⟩ := by
  unfold checkTier
  rw [if_neg (by simp [h])]
  have hl2 : lookupChatId
      { db with achievements := db.achievements ++ [⟨u, t, T⟩] } u = some ch := hl
  rw [hl2]

theorem checkTier_noChat {db : DB} {u : Int} {t : String} {T : Int}
    {mk : Int → Notif} (h : hasAchievement db u t = false)
    (hl : lookupChatId db u = none) :
    checkTier db u t T mk =
      ⟨{ db with achievements := db.achievements ++ [⟨u, t, T⟩] }, [], true⟩ := by
  unfold checkTier
  rw [if_neg (by simp [h])]
  have hl2 : lookupChatId
      { db with achievements := db.achievements ++ [⟨u, t, T⟩] } u = none := hl
  rw [hl2]

theorem checkTier_sameExceptAch (db : DB) (u : Int) (t : String) (T : Int)
    (mk : Int → Notif) : SameExceptAch (checkTier db u t T mk).db db := by
  unfold checkTier
  by_cases h : hasAchievement db u t
  · rw [if_pos h]; exact sameExceptAch_refl db
  · rw [if_neg h]
    cases hl : lookupChatId
        { db with achievements := db.achievements ++ [⟨u, t, T⟩] } u <;>
      exact ⟨rfl, rfl, rfl, rfl⟩

theorem achTier100_sameExceptAch (db : DB) (u s T : Int) :
    SameExceptAch (achTier100 db u s T).db db := by
  unfold achTier100
  by_cases h : s ≥ 100
  · rw [if_pos h]; exact checkTier_sameExceptAch db u "100_days" T _
  · rw [if_neg h]; exact sameExceptAch_refl db

theorem achTier365_sameExceptAch (db : DB) (u s T : Int) :
    SameExceptAch (achTier365 db u s T).db db := by
  unfold achTier365
  by_cases h : s ≥ 365
  · rw [if_pos h]; exact checkTier_sameExceptAch db u "365_days" T _
  · rw [if_neg h]; exact sameExceptAch_refl db

theorem checkAndRecord_sameExceptAch (db : DB) (u s T : Int) :
    SameExceptAch (checkAndRecordAchievements db u s T).db db := by
  unfold checkAndRecordAchievements
  by_cases he : (achTier100 db u s T).err
  · rw [if_pos he]; exact achTier100_sameExceptAch db u s T
  · rw [if_neg (by simp [he])]
    exact sameExceptAch_trans (achTier365_sameExceptAch _ u s T)
      (achTier100_sameExceptAch db u s T)

theorem checkTier_err_false {db : DB} {u : Int} {t : String} {T : Int}
    {mk : Int → Notif} (h : (lookupChatId db u).isSome = true) :
    (checkTier db u t T mk).err = false := by
  by_cases ha : hasAchievement db u t
  · rw [checkTier_skip ha]
  · obtain ⟨ch, hch⟩ := Option.isSome_iff_exists.mp h
    rw [checkTier_insert (Bool.not_eq_true _ ▸ ha) hch]

theorem achTier100_err_false {db : DB} {u : Int} {s T : Int}
    (h : (lookupChatId db u).isSome = true) :
    (achTier100 db u s T).err = false := by
  unfold achTier100
  by_cases hs : s ≥ 100
  · rw [if_pos hs]; exact checkTier_err_false h
  · rw [if_neg hs]

theorem achTier365_err_false {db : DB} {u : Int} {s T : Int}
    (h : (lookupChatId db u).isSome = true) :
    (achTier365 db u s T).err = false := by
  unfold achTier365
  by_cases hs : s ≥ 365
  · rw [if_pos hs]; exact checkTier_err_false h
  · rw [if_neg hs]

theorem checkAndRecord_err_false {db : DB} {u : Int} (s T : Int)
    (h : userExists db u = true) :
    (checkAndRecordAchievements db u s T).err = false := by
  have h1 : (lookupChatId db u).isSome = true := lookupChatId_isSome h
  have he1 : (achTier100 db u s T).err = false := achTier100_err_false h1
  unfold checkAndRecordAchievements
  rw [he1]
  simp only [Bool.false_eq_true, if_false]
  have h2 : (lookupChatId (achTier100 db u s T).db u).isSome = true := by
    rw [lookupChatId_congr (achTier100_sameExceptAch db u s T).1 u]
    exact h1
  exact achTier365_err_false h2

theorem hasAchievement_append {db : DB} {l : List Achievement} {u : Int}
    {t : String} :
    hasAchievement { db with achievements := db.achievements ++ l } u t =
      (hasAchievement db u t || l.any fun a => a.userId == u && a.achType == t) := by
  unfold hasAchievement
  rw [List.any_append]

theorem hasAchievement_append_single_self {db : DB} {u : Int} {t : String}
    {T : Int} :
    hasAchievement { db with achievements := db.achievements ++ [⟨u, t, T⟩] }
      u t = true := by
  rw [hasAchievement_append]
  simp

theorem hasAchievement_append_single_ne {db : DB} {u u2 : Int} {t t2 : String}
    {T : Int} (hne : t2 ≠ t) :
    hasAchievement { db with achievements := db.achievements ++ [⟨u2, t2, T⟩] }
      u t = hasAchievement db u t := by
  rw [hasAchievement_append]
  simp [hne]

theorem checkTier_hasAchievement_mono {db : DB} {u u2 : Int} {t t2 : String}
    {T : Int} {mk : Int → Notif} (h : hasAchievement db u t = true) :
    hasAchievement (checkTier db u2 t2 T mk).db u t = true := by
  unfold checkTier
  by_cases ha : hasAchievement db u2 t2
  · rw [if_pos ha]; exact h
  · rw [if_neg ha]
    cases hl : lookupChatId
        { db with achievements := db.achievements ++ [⟨u2, t2, T⟩] } u2 <;>
      · show hasAchievement
            { db with achievements := db.achievements ++ [⟨u2, t2, T⟩] } u t = true
        rw [hasAchievement_append, h, Bool.true_or]

theorem achTier365_hasAchievement_mono {db : DB} {u u2 : Int} {t : String}
    {s T : Int} (h : hasAchievement db u t = true) :
    hasAchievement (achTier365 db u2 s T).db u t = true := by
  unfold achTier365
  by_cases hs : s ≥ 365
  · rw [if_pos hs]; exact checkTier_hasAchievement_mono h
  · rw [if_neg hs]; exact h

/-- Normal form of a run of checkAndRecordAchievements whose participants
lookup succeeds: each tier appends its row and notification exactly when the
streak reaches the threshold and the achievement is not yet recorded. -/
theorem checkAndRecord_run {db : DB} {u ch : Int} (s T : Int)
    (hch : lookupChatId db u = some ch) :
    checkAndRecordAchievements db u s T =
      ⟨{ db with achievements := db.achievements ++
          ((if s ≥ 100 ∧ hasAchievement db u "100_days" = false
            then [⟨u, "100_days", T⟩] else []) ++
           (if s ≥ 365 ∧ hasAchievement db u "365_days" = false
            then [⟨u, "365_days", T⟩] else [])) },
        ((if s ≥ 100 ∧ hasAchievement db u "100_days" = false
          then [Notif.achievement100 ch] else []) ++
         (if s ≥ 365 ∧ hasAchievement db u "365_days" = false
          then [Notif.achievement365 ch] else [])),
        false⟩ := by
  by_cases hs100 : s ≥ 100
  · by_cases hA100 : hasAchievement db u "100_days"
    · have e1 : achTier100 db u s T = ⟨db, [], false⟩ := by
        unfold achTier100; rw [if_pos hs100, checkTier_skip hA100]
      by_cases hs365 : s ≥ 365
      · by_cases hA365 : hasAchievement db u "365_days"
        · have e2 : achTier365 db u s T = ⟨db, [], false⟩ := by
            unfold achTier365; rw [if_pos hs365, checkTier_skip hA365]
          unfold checkAndRecordAchievements
          simp only [e1, e2]
          simp [hA100, hA365]
        · have e2 : achTier365 db u s T =
              ⟨{ db with achievements := db.achievements ++ [⟨u, "365_days", T⟩] },
                [Notif.achievement365 ch], false⟩ := by
            unfold achTier365
            rw [if_pos hs365, checkTier_insert (Bool.not_eq_true _ ▸ hA365) hch]
          unfold checkAndRecordAchievements
          simp only [e1, e2]
          simp [hA100, hs365, Bool.not_eq_true _ ▸ hA365]
      · have e2 : achTier365 db u s T = ⟨db, [], false⟩ := by
          unfold achTier365; rw [if_neg hs365]
        unfold checkAndRecordAchievements
        simp only [e1, e2]
        simp [hA100, hs365]
    · have hA100f : hasAchievement db u "100_days" = false :=
        Bool.not_eq_true _ ▸ hA100
      have e1 : achTier100 db u s T =
          ⟨{ db with achievements := db.achievements ++ [⟨u, "100_days", T⟩] },
            [Notif.achievement100 ch], false⟩ := by
        unfold achTier100; rw [if_pos hs100, checkTier_insert hA100f hch]
      have hA365e : hasAchievement
          { db with achievements := db.achievements ++ [⟨u, "100_days", T⟩] }
          u "365_days" = hasAchievement db u "365_days" :=
        hasAchievement_append_single_ne (by decide)
      by_cases hs365 : s ≥ 365
      · by_cases hA365 : hasAchievement db u "365_days"
        · have e2 : achTier365
              { db with achievements := db.achievements ++ [⟨u, "100_days", T⟩] }
              u s T =
              ⟨{ db with achievements := db.achievements ++ [⟨u, "100_days", T⟩] },
                [], false⟩ := by
            unfold achTier365
            rw [if_pos hs365, checkTier_skip (hA365e.trans hA365)]
          unfold checkAndRecordAchievements
          simp only [e1, e2]
          simp [hs100, hA100f, hs365, hA365]
        · have hA365f : hasAchievement db u "365_days" = false :=
            Bool.not_eq_true _ ▸ hA365
          have hch2 : lookupChatId
              { db with achievements := db.achievements ++ [⟨u, "100_days", T⟩] }
              u = some ch := hch
          have e2 : achTier365
              { db with achievements := db.achievements ++ [⟨u, "100_days", T⟩] }
              u s T =
              ⟨{ db with achievements :=
                  (db.achievements ++ [⟨u, "100_days", T⟩]) ++ [⟨u, "365_days", T⟩] },
                [Notif.achievement365 ch], false⟩ := by
            unfold achTier365
            rw [if_pos hs365, checkTier_insert (hA365e.trans hA365f) hch2]
          unfold checkAndRecordAchievements
          simp only [e1, e2]
          simp [hs100, hA100f, hs365, hA365f, List.append_assoc]
      · have e2 : achTier365
            { db with achievements := db.achievements ++ [⟨u, "100_days", T⟩] }
            u s T =
            ⟨{ db with achievements := db.achievements ++ [⟨u, "100_days", T⟩] },
              [], false⟩ := by
          unfold achTier365; rw [if_neg hs365]
        unfold checkAndRecordAchievements
        simp only [e1, e2]
        simp [hs100, hA100f, hs365]
  · have hs365 : ¬ s ≥ 365 := by omega
    have e1 : achTier100 db u s T = ⟨db, [], false⟩ := by
      unfold achTier100; rw [if_neg hs100]
    have e2 : achTier365 db u s T = ⟨db, [], false⟩ := by
      unfold achTier365; rw [if_neg hs365]
    unfold checkAndRecordAchievements
    simp only [e1, e2]
    simp [hs100, hs365]

/-- When both tiers leave the state untouched, so does the whole check. -/
theorem checkAndRecord_of_tiers {db : DB} {u : Int} {s T : Int}
    (g1 : achTier100 db u s T = ⟨db, [], false⟩)
    (g2 : achTier365 db u s T = ⟨db, [], false⟩) :
    checkAndRecordAchievements db u s T = ⟨db, [], false⟩ := by
  unfold checkAndRecordAchievements
  simp only [g1, g2]
  simp

/-- A second run of checkAndRecordAchievements right after a successful one,
with the same streak, changes nothing and notifies nobody. -/
theorem checkAndRecord_snd_run (db : DB) (u : Int) (s T : Int)
    (he : (checkAndRecordAchievements db u s T).err = false) :
    checkAndRecordAchievements (checkAndRecordAchievements db u s T).db u s T =
      ⟨(checkAndRecordAchievements db u s T).db, [], false⟩ := by
  by_cases he1 : (achTier100 db u s T).err
  · exfalso
    unfold checkAndRecordAchievements at he
    rw [if_pos he1] at he
    rw [he1] at he
    exact absurd he (by simp)
  · have ho : (checkAndRecordAchievements db u s T).db =
        (achTier365 (achTier100 db u s T).db u s T).db := by
      unfold checkAndRecordAchievements
      rw [if_neg (by simp [he1])]
    have F100 : s ≥ 100 →
        hasAchievement (checkAndRecordAchievements db u s T).db u "100_days" = true := by
      intro hs
      rw [ho]
      apply achTier365_hasAchievement_mono
      unfold achTier100
      rw [if_pos hs]
      by_cases hA : hasAchievement db u "100_days"
      · rw [checkTier_skip hA]; exact hA
      · unfold achTier100 at he1
        rw [if_pos hs] at he1
        cases hl : lookupChatId
            { db with achievements := db.achievements ++ [⟨u, "100_days", T⟩] } u with
        | none =>
          exfalso
          apply he1
          have hl2 : lookupChatId db u = none := hl
          rw [checkTier_noChat (Bool.not_eq_true _ ▸ hA) hl2]
        | some ch =>
          have hl2 : lookupChatId db u = some ch := hl
          rw [checkTier_insert (Bool.not_eq_true _ ▸ hA) hl2]
          exact hasAchievement_append_single_self
    have F365 : s ≥ 365 →
        hasAchievement (checkAndRecordAchievements db u s T).db u "365_days" = true := by
      intro hs
      rw [ho]
      unfold achTier365
      rw [if_pos hs]
      by_cases hA : hasAchievement (achTier100 db u s T).db u "365_days"
      · rw [checkTier_skip hA]; exact hA
      · cases hl : lookupChatId
            { (achTier100 db u s T).db with achievements :=
              (achTier100 db u s T).db.achievements ++ [⟨u, "365_days", T⟩] } u with
        | none =>
          exfalso
          have hl2 : lookupChatId (achTier100 db u s T).db u = none := hl
          have hee : (checkAndRecordAchievements db u s T).err =
              (achTier365 (achTier100 db u s T).db u s T).err := by
            unfold checkAndRecordAchievements
            rw [if_neg (by simp [he1])]
          rw [hee] at he
          unfold achTier365 at he
          rw [if_pos hs, checkTier_noChat (Bool.not_eq_true _ ▸ hA) hl2] at he
          exact absurd he (by simp)
        | some ch =>
          have hl2 : lookupChatId (achTier100 db u s T).db u = some ch := hl
          rw [checkTier_insert (Bool.not_eq_true _ ▸ hA) hl2]
          exact hasAchievement_append_single_self
    refine checkAndRecord_of_tiers ?_ ?_
    · unfold achTier100
      by_cases hs : s ≥ 100
      · rw [if_pos hs, checkTier_skip (F100 hs)]
      · rw [if_neg hs]
    · unfold achTier365
      by_cases hs : s ≥ 365
      · rw [if_pos hs, checkTier_skip (F365 hs)]
      · rw [if_neg hs]

/-! ### Claim theorems: the streak engine -/

/-- C2: for every user and reference day T, getIndividualStreak equals the
length of the maximal run of consecutive completed days ending at T-1 (the
k days T-1, ..., T-k all completed and T-1-k not), plus 1 when T itself has
a completion record; a user with no completion records at all has streak 0;
the streak is 0 whenever T is incomplete and T-1 has no record; and in the
days-1-to-5-and-7 scenario the streak is 1 after day 7 (measured on day 7
itself or on the following day 8) and 5 after day 5 (measured on day 5
itself or on the following day 6). -/
theorem claim_C2_individual_streak :
    (∀ (db : DB) (u T : Int) (k : Nat),
      (∀ i : Nat, i < k → hasCompleted db u (T - 1 - i) = true) →
      hasCompleted db u (T - 1 - k) = false →
      getIndividualStreak db u T = k + (if hasCompleted db u T then 1 else 0)) ∧
    (∀ (db : DB) (u T : Int),
      (∀ c ∈ db.completions, c.userId ≠ u) → getIndividualStreak db u T = 0) ∧
    (∀ (db : DB) (u T : Int), hasCompleted db u T = false →
      hasCompleted db u (T - 1) = false → getIndividualStreak db u T = 0) ∧
    getIndividualStreak scenarioIndividualDB 1 7 = 1 ∧
    getIndividualStreak scenarioIndividualDB 1 8 = 1 ∧
    getIndividualStreak scenarioIndividualDB 1 5 = 5 ∧
    getIndividualStreak scenarioIndividualDB 1 6 = 5 := by
  refine ⟨getIndividualStreak_eq_run, ?_, ?_,
    by decide, by decide, by decide, by decide⟩
  · intro db u T h
    have hnone : ∀ d : Int, hasCompleted db u d = false := by
      intro d
      rw [← Bool.not_eq_true, hasCompleted_iff]
      rintro ⟨c, hc, hcu, -⟩
      exact h c hc hcu
    have hz := getIndividualStreak_eq_run db u T 0
      (fun i hi => absurd hi (Nat.not_lt_zero i)) (hnone _)
    rw [hz, hnone T]
    simp
  · intro db u T hT hY
    have hgap : hasCompleted db u (T - 1 - (0 : Nat)) = false := by simpa using hY
    have hz := getIndividualStreak_eq_run db u T 0
      (fun i hi => absurd hi (Nat.not_lt_zero i)) hgap
    rw [hz, hT]
    simp

/-- Witness for C2: the characterisation applied at the concrete scenario
database with the 5-day run 1..5 ending just before reference day 6. -/
theorem claim_C2_witness :
    getIndividualStreak scenarioIndividualDB 1 6 =
      5 + (if hasCompleted scenarioIndividualDB 1 6 then 1 else 0) :=
  claim_C2_individual_streak.1 scenarioIndividualDB 1 6 5 (by decide) (by decide)

/-- C3 counterexample: the group-day check is not the claimed
joined-on-or-before rule, and the scenario value 9 is wrong.  In the
A-completes-days-1-to-10, B-completes-days-1-to-9 fixture both participants
joined on day 1 and both completed day 1, yet the code does not count day 1
as group-complete: joined_at is a CURRENT_TIMESTAMP text that compares
lexicographically greater than day 1's date string, so same-day joiners are
excluded and day 1 has an empty denominator.  Consequently the group streak
after day 9 is 8 (measured on day 9 or on day 10), not the claimed 9. -/
theorem claim_C3_counterexample :
    scenarioGroupDB.participants.all
      (fun q => decide (q.joinedAt ≤ 1) && hasCompleted scenarioGroupDB q.userId 1) =
      true ∧
    scenarioGroupDB.participants.isEmpty = false ∧
    groupDayComplete scenarioGroupDB 1 = false ∧
    getConsecutiveCompletionDays scenarioGroupDB 9 = 8 ∧
    getConsecutiveCompletionDays scenarioGroupDB 10 = 8 := by
  refine ⟨by decide, by decide, by decide, by decide, by decide⟩

/-- C3 (amended): the group streak as of day T is the backward walk where a
day D counts as complete iff at least one participant had joined strictly
before D and every participant who joined strictly before D has a
completion record for D — participants who joined on D or later are
excluded from D's check, because the stored joined_at timestamp compares
greater than D's date string; a day with zero eligible participants is a
break; with no participants at all the group streak is 0; and in the
A-completes-days-1-to-10, B-completes-days-1-to-9 scenario the group streak
is 0 after day 10 (measured on day 11, once day 10 has ended) and 8 after
day 9 (measured on day 10, the run day 2 .. day 9: day 1 is broken by its
empty denominator). -/
theorem claim_C3_group_streak :
    (∀ (db : DB) (T : Int) (k : Nat),
      (∀ i : Nat, i < k → groupDayComplete db (T - 1 - i) = true) →
      groupDayComplete db (T - 1 - k) = false →
      getConsecutiveCompletionDays db T =
        k + (if groupDayComplete db T then 1 else 0)) ∧
    (∀ (db : DB) (d : Int) (q : Participant),
      q ∈ eligibleParticipants db d ↔ q ∈ db.participants ∧ q.joinedAt < d) ∧
    (∀ (db : DB) (d : Int), PartUnique db →
      (groupDayComplete db d = true ↔
        eligibleParticipants db d ≠ [] ∧
          ∀ q ∈ eligibleParticipants db d, hasCompleted db q.userId d = true)) ∧
    (∀ (db : DB) (d : Int), eligibleParticipants db d = [] →
      groupDayComplete db d = false) ∧
    (∀ (db : DB) (T : Int), db.participants = [] →
      getConsecutiveCompletionDays db T = 0) ∧
    getConsecutiveCompletionDays scenarioGroupDB 11 = 0 ∧
    getConsecutiveCompletionDays scenarioGroupDB 10 = 8 := by
  refine ⟨getConsecutiveCompletionDays_eq_run,
    fun db d q => mem_eligibleParticipants,
    fun db d hP => groupDayComplete_iff hP d, ?_, ?_, by decide, by decide⟩
  · intro db d h
    simp [groupDayComplete, totalParticipantsOn, h]
  · intro db T h
    have hall : ∀ d : Int, groupDayComplete db d = false := by
      intro d
      have hE : eligibleParticipants db d = [] := by
        simp [eligibleParticipants, h]
      simp [groupDayComplete, totalParticipantsOn, hE]
    have hz := getConsecutiveCompletionDays_eq_run db T 0
      (fun i hi => absurd hi (Nat.not_lt_zero i)) (hall _)
    rw [hz, hall T]
    simp

/-- Witness for C3: the characterisation applied at the concrete scenario
database with the 8-day group run (days 2 .. 9) ending just before
reference day 10, broken at day 1 by its empty denominator. -/
theorem claim_C3_witness :
    getConsecutiveCompletionDays scenarioGroupDB 10 =
      8 + (if groupDayComplete scenarioGroupDB 10 then 1 else 0) :=
  claim_C3_group_streak.1 scenarioGroupDB 10 8 (by decide) (by decide)

/-- C9 counterexample: as worded — over participants who joined on or
before every day of the walk — the bound fails on the code.  User 1 joined
day 4 and completed days 5-7; user 2 joined day 5 and completed days 6-7.
User 2 joined on or before every walked day (days 5, 6 and the reference
day 7), yet day 5's group check excludes the same-day joiner, so the group
streak as of day 7 is 3 while user 2's individual streak is only 2. -/
theorem claim_C9_counterexample :
    (⟨2, "paula", 10, none, 5⟩ : Participant) ∈ scenarioLateJoinDB.participants ∧
    PartUnique scenarioLateJoinDB ∧
    (5 : Int) ≤ 7 - (groupBaseStreak scenarioLateJoinDB 7 : Int) ∧
    getConsecutiveCompletionDays scenarioLateJoinDB 7 = 3 ∧
    getIndividualStreak scenarioLateJoinDB 2 7 = 2 ∧
    decide (getConsecutiveCompletionDays scenarioLateJoinDB 7 ≤
      getIndividualStreak scenarioLateJoinDB 2 7) = false := by
  refine ⟨by decide, by unfold PartUnique; decide, by decide, by decide,
    by decide, by decide⟩

/-- C9 (amended): the group streak never exceeds the individual streak of
any participant who was eligible — in the code's sense, joined strictly
before — on every day visited by the backward walk, i.e. whoever joined
strictly before day T minus the walk's base run length. -/
theorem claim_C9_group_le_individual (db : DB) (T : Int) (p : Participant)
    (hP : PartUnique db) (hmem : p ∈ db.participants)
    (hjoin : p.joinedAt < T - (groupBaseStreak db T : Int)) :
    getConsecutiveCompletionDays db T ≤ getIndividualStreak db p.userId T := by
  have hsound : ∀ i : Nat, i < groupBaseStreak db T →
      groupDayComplete db (T - 1 - i) = true := by
    intro i hi
    exact walkBack_sound (groupDayComplete db) (streakFuel db) (T - 1) i hi
  have hcomp : ∀ i : Nat, i < groupBaseStreak db T →
      hasCompleted db p.userId (T - 1 - i) = true := by
    intro i hi
    have hiff := (groupDayComplete_iff hP (T - 1 - i)).mp (hsound i hi)
    refine hiff.2 p (mem_eligibleParticipants.mpr ⟨hmem, ?_⟩)
    omega
  have hble : groupBaseStreak db T ≤ streakFuel db := walkBack_le _ _ _
  have hind : groupBaseStreak db T ≤
      walkBack (fun d => hasCompleted db p.userId d) (T - 1) (streakFuel db) :=
    walkBack_ge _ (groupBaseStreak db T) (streakFuel db) (T - 1) hble hcomp
  unfold getConsecutiveCompletionDays getIndividualStreak
  by_cases ht : groupDayComplete db T = true
  · have hT : hasCompleted db p.userId T = true := by
      have hiff := (groupDayComplete_iff hP T).mp ht
      refine hiff.2 p (mem_eligibleParticipants.mpr ⟨hmem, ?_⟩)
      omega
    rw [if_pos ht, if_pos hT]
    omega
  · rw [if_neg ht]
    have : (0 : Nat) ≤ if hasCompleted db p.userId T = true then 1 else 0 :=
      Nat.zero_le _
    omega

/-- Witness for C9 at the concrete group scenario: participant A joined on
day 1, strictly before day 10 minus the 8-day base run. -/
theorem claim_C9_witness :
    getConsecutiveCompletionDays scenarioGroupDB 10 ≤
      getIndividualStreak scenarioGroupDB 1 10 :=
  claim_C9_group_le_individual scenarioGroupDB 10 ⟨1, "alice", 10, none, 1⟩
    (by unfold PartUnique; decide) (by decide) (by decide)

/-! ### Claim theorems: the achievement engine -/

theorem achUnique_append {db : DB} {u : Int} {t : String} {T : Int}
    (h : AchUnique db) (hA : hasAchievement db u t = false) :
    AchUnique { db with achievements := db.achievements ++ [⟨u, t, T⟩] } := by
  unfold AchUnique at h ⊢
  rw [List.map_append, List.nodup_append]
  refine ⟨h, List.nodup_singleton _, ?_⟩
  intro x hx hx2
  simp only [List.map_cons, List.map_nil, List.mem_singleton] at hx2
  subst hx2
  rw [List.mem_map] at hx
  obtain ⟨a, ha, hkey⟩ := hx
  have hnot : ¬ ∃ a ∈ db.achievements, a.userId = u ∧ a.achType = t := by
    rw [← hasAchievement_iff, hA]
    simp
  exact hnot ⟨a, ha, congrArg Prod.fst hkey, congrArg Prod.snd hkey⟩

theorem checkTier_achUnique {db : DB} {u : Int} {t : String} {T : Int}
    {mk : Int → Notif} (h : AchUnique db) :
    AchUnique (checkTier db u t T mk).db := by
  unfold checkTier
  by_cases hA : hasAchievement db u t
  · rw [if_pos hA]; exact h
  · rw [if_neg hA]
    cases hl : lookupChatId
        { db with achievements := db.achievements ++ [⟨u, t, T⟩] } u <;>
      exact achUnique_append h (Bool.not_eq_true _ ▸ hA)

theorem achTier100_achUnique {db : DB} {u s T : Int} (h : AchUnique db) :
    AchUnique (achTier100 db u s T).db := by
  unfold achTier100
  by_cases hs : s ≥ 100
  · rw [if_pos hs]; exact checkTier_achUnique h
  · rw [if_neg hs]; exact h

theorem achTier365_achUnique {db : DB} {u s T : Int} (h : AchUnique db) :
    AchUnique (achTier365 db u s T).db := by
  unfold achTier365
  by_cases hs : s ≥ 365
  · rw [if_pos hs]; exact checkTier_achUnique h
  · rw [if_neg hs]; exact h

theorem checkAndRecord_achUnique {db : DB} {u s T : Int} (h : AchUnique db) :
    AchUnique (checkAndRecordAchievements db u s T).db := by
  unfold checkAndRecordAchievements
  by_cases he : (achTier100 db u s T).err
  · rw [if_pos he]; exact achTier100_achUnique h
  · rw [if_neg (by simp [he])]
    exact achTier365_achUnique (achTier100_achUnique h)

/-- C4: an achievement row of a tier is written exactly when the supplied
streak reaches the tier's threshold and no row of that type exists for the
user; the (user, type) primary key stays duplicate-free, so it is written
at most once per pair; a second run right after a successful one changes
nothing and emits nothing; and a fresh qualifying run leaves exactly one
100_days row and exactly one 100-days congratulation. -/
theorem claim_C4_achievements_once :
    (∀ (db : DB) (u ch s T : Int), lookupChatId db u = some ch →
      (checkAndRecordAchievements db u s T).db.achievements =
        db.achievements ++
          ((if s ≥ 100 ∧ hasAchievement db u "100_days" = false
            then [⟨u, "100_days", T⟩] else []) ++
           (if s ≥ 365 ∧ hasAchievement db u "365_days" = false
            then [⟨u, "365_days", T⟩] else []))) ∧
    (∀ (db : DB) (u s T : Int), AchUnique db →
      AchUnique (checkAndRecordAchievements db u s T).db) ∧
    (∀ (db : DB) (u s T : Int),
      (checkAndRecordAchievements db u s T).err = false →
      checkAndRecordAchievements (checkAndRecordAchievements db u s T).db u s T =
        ⟨(checkAndRecordAchievements db u s T).db, [], false⟩) ∧
    (∀ (db : DB) (u ch s T : Int), lookupChatId db u = some ch →
      s ≥ 100 → hasAchievement db u "100_days" = false →
      ((checkAndRecordAchievements db u s T).db.achievements.filter
        fun a => a.userId == u && a.achType == "100_days").length = 1 ∧
      (checkAndRecordAchievements db u s T).notifs.countP Notif.is100 = 1) := by
  refine ⟨?_, fun db u s T h => checkAndRecord_achUnique h,
    fun db u s T he => checkAndRecord_snd_run db u s T he, ?_⟩
  · intro db u ch s T hch
    rw [checkAndRecord_run s T hch]
  · intro db u ch s T hch hs hA
    rw [checkAndRecord_run s T hch]
    have hdbnil : db.achievements.filter
        (fun a => a.userId == u && a.achType == "100_days") = [] := by
      rw [List.filter_eq_nil_iff]
      intro a ha hpred
      have hnot : ¬ ∃ a ∈ db.achievements, a.userId = u ∧ a.achType = "100_days" := by
        rw [← hasAchievement_iff, hA]
        simp
      simp only [Bool.and_eq_true, beq_iff_eq] at hpred
      exact hnot ⟨a, ha, hpred.1, hpred.2⟩
    constructor
    · rw [if_pos ⟨hs, hA⟩]
      by_cases h365 : s ≥ 365 ∧ hasAchievement db u "365_days" = false
      · rw [if_pos h365]
        simp [List.filter_append, hdbnil]
      · rw [if_neg h365]
        simp [List.filter_append, hdbnil]
    · simp only [List.countP_append]
      by_cases h365 : s ≥ 365 ∧ hasAchievement db u "365_days" = false
      · rw [if_pos ⟨hs, hA⟩, if_pos h365]
        simp [Notif.is100]
      · rw [if_pos ⟨hs, hA⟩, if_neg h365]
        simp [Notif.is100]

/-- Witness for C4: a fresh run at streak 100 for the registered scenario
participant records one 100_days row and one congratulation. -/
theorem claim_C4_witness :
    ((checkAndRecordAchievements scenarioIndividualDB 1 100 7).db.achievements.filter
      fun a => a.userId == 1 && a.achType == "100_days").length = 1 ∧
    (checkAndRecordAchievements scenarioIndividualDB 1 100 7).notifs.countP
      Notif.is100 = 1 :=
  claim_C4_achievements_once.2.2.2 scenarioIndividualDB 1 10 100 7
    (by decide) (by decide) (by decide)

/-! ### Claim theorems: completion-key uniqueness -/

theorem compUnique_congr {db1 db2 : DB} (h : db1.completions = db2.completions) :
    CompUnique db1 ↔ CompUnique db2 := by
  unfold CompUnique; rw [h]

theorem compUnique_append {db : DB} {u d : Int} {note : String}
    (h : CompUnique db) (hc : hasCompleted db u d = false) :
    CompUnique { db with completions := db.completions ++ [⟨u, d, note⟩] } := by
  unfold CompUnique at h ⊢
  rw [List.map_append, List.nodup_append]
  refine ⟨h, List.nodup_singleton _, ?_⟩
  intro x hx hx2
  simp only [List.map_cons, List.map_nil, List.mem_singleton] at hx2
  subst hx2
  rw [List.mem_map] at hx
  obtain ⟨c, hcmem, hkey⟩ := hx
  have hnot : ¬ ∃ c ∈ db.completions, c.userId = u ∧ c.day = d := by
    rw [← hasCompleted_iff, hc]
    simp
  exact hnot ⟨c, hcmem, congrArg Prod.fst hkey, congrArg Prod.snd hkey⟩

theorem compUnique_filter {db : DB} (p : Completion → Bool) (h : CompUnique db) :
    CompUnique { db with completions := db.completions.filter p } := by
  unfold CompUnique at h ⊢
  exact List.Nodup.sublist ((List.filter_sublist _).map _) h

theorem insertCompletions_compUnique {u : Int} {note : String} :
    ∀ (ds : List Int) (db : DB), CompUnique db →
      CompUnique (insertCompletions u note db ds).1 := by
  intro ds
  induction ds with
  | nil => intro db h; exact h
  | cons d rest ih =>
    intro db h
    unfold insertCompletions
    by_cases hc : hasCompleted db u d
    · rw [if_pos hc]; exact h
    · rw [if_neg hc]
      exact ih _ (compUnique_append h (Bool.not_eq_true _ ▸ hc))

theorem achAfterInsert_compUnique {db : DB} {u d T : Int} {note : String}
    (h : CompUnique db) (hc : hasCompleted db u d = false) :
    CompUnique (achAfterInsert db u d T note).db := by
  have h1 : CompUnique (completeFresh db u d note) := compUnique_append h hc
  unfold achAfterInsert
  exact (compUnique_congr (checkAndRecord_sameExceptAch _ _ _ _).2.1).mpr h1

theorem setStreakInserted_compUnique {db : DB} {u T : Int} {n : Nat}
    {note : String} (h : CompUnique db) :
    CompUnique (setStreakInserted db u n T note).1 := by
  unfold setStreakInserted
  exact insertCompletions_compUnique _ _ (compUnique_filter _ h)

/-- C1: every operation that writes the completion ledger — marking today,
marking yesterday, undoing today, and the administrative streak-set —
preserves the invariant that no two completion rows share (userId, day),
the invariant the PRIMARY KEY (user_id, completed_at) enforces. -/
theorem claim_C1_completion_unique (db : DB) (h : CompUnique db) (u T : Int)
    (n : Nat) (note : String) :
    CompUnique (handleCompleteChallenge db u T note).db ∧
    CompUnique (handleMarkYesterday db u T note).db ∧
    CompUnique (handleUndoComplete db u T).1 ∧
    CompUnique (SetUserStreak db u n T note).db := by
  refine ⟨?_, ?_, ?_, ?_⟩
  · unfold handleCompleteChallenge
    by_cases hc : hasCompleted db u T
    · rw [if_pos hc]; exact h
    · rw [if_neg hc]
      exact achAfterInsert_compUnique h (Bool.not_eq_true _ ▸ hc)
  · unfold handleMarkYesterday
    by_cases hc : hasCompleted db u (T - 1)
    · rw [if_pos hc]; exact h
    · rw [if_neg hc]
      exact achAfterInsert_compUnique h (Bool.not_eq_true _ ▸ hc)
  · unfold handleUndoComplete
    by_cases hc : hasCompleted db u T
    · rw [if_pos hc]; exact compUnique_filter _ h
    · rw [if_neg hc]; exact h
  · unfold SetUserStreak
    by_cases hu : userExists db u
    · rw [if_neg (by simp [hu])]
      by_cases hins : (setStreakInserted db u n T note).2
      · rw [if_neg (by simp [hins])]
        unfold achAfterSet
        exact (compUnique_congr (checkAndRecord_sameExceptAch _ _ _ _).2.1).mpr
          (setStreakInserted_compUnique h)
      · rw [if_pos (by simp [hins])]
        exact setStreakInserted_compUnique h
    · rw [if_pos (by simp [hu])]
      exact h

/-- Witness for C1: the preservation applied to the concrete scenario state
for each of the four operations. -/
theorem claim_C1_witness :
    CompUnique (handleCompleteChallenge scenarioIndividualDB 1 8 "x").db ∧
    CompUnique (handleMarkYesterday scenarioIndividualDB 1 8 "x").db ∧
    CompUnique (handleUndoComplete scenarioIndividualDB 1 8).1 ∧
    CompUnique (SetUserStreak scenarioIndividualDB 1 3 8 "x").db :=
  claim_C1_completion_unique scenarioIndividualDB
    (by unfold CompUnique; decide) 1 8 3 "x"

/-! ### Claim theorems: marking completion -/

/-- C5: marking completion for a (user, day) that already has a record
responds AlreadyCompleted and leaves the whole database — in particular the
completion ledger — unchanged; when no record exists exactly one new row
(user, day) carrying the chosen congratulatory note is appended to the
ledger, and for a registered user the handler reports success. -/
theorem claim_C5_mark_completed (db : DB) (u T : Int) (note : String) :
    (hasCompleted db u T = true →
      handleCompleteChallenge db u T note = ⟨db, .alreadyCompleted, []⟩) ∧
    (hasCompleted db u T = false →
      (handleCompleteChallenge db u T note).db.completions =
        db.completions ++ [⟨u, T, note⟩]) ∧
    (hasCompleted db u T = false → userExists db u = true →
      (handleCompleteChallenge db u T note).res = .ok) := by
  refine ⟨?_, ?_, ?_⟩
  · intro hc
    unfold handleCompleteChallenge
    rw [if_pos hc]
  · intro hc
    unfold handleCompleteChallenge
    rw [if_neg (by simp [hc])]
    show (achAfterInsert db u T T note).db.completions = _
    unfold achAfterInsert
    rw [(checkAndRecord_sameExceptAch _ _ _ _).2.1]
    rfl
  · intro hc hu
    unfold handleCompleteChallenge
    rw [if_neg (by simp [hc])]
    show (if (achAfterInsert db u T T note).err
      then CompleteResult.storeError else .ok) = .ok
    have herr : (achAfterInsert db u T T note).err = false := by
      unfold achAfterInsert
      apply checkAndRecord_err_false
      rw [userExists_congr
        (rfl : (completeFresh db u T note).participants = db.participants) u]
      exact hu
    rw [herr]
    simp

/-- Witness for C5: a fresh completion by the registered scenario user on
day 8 succeeds. -/
theorem claim_C5_witness :
    (handleCompleteChallenge scenarioIndividualDB 1 8 "well done").res =
      CompleteResult.ok :=
  (claim_C5_mark_completed scenarioIndividualDB 1 8 "well done").2.2
    (by decide) (by decide)

/-! ### Claim theorems: the administrative streak-set -/

theorem mem_setStreakDays {n : Nat} {T d : Int} :
    d ∈ setStreakDays n T ↔ T - n < d ∧ d ≤ T := by
  unfold setStreakDays
  simp only [List.mem_map, List.mem_range]
  constructor
  · rintro ⟨j, hj, rfl⟩
    omega
  · intro h
    refine ⟨(d - (T - n + 1)).toNat, by omega, by omega⟩

theorem setStreakDays_nodup (n : Nat) (T : Int) : (setStreakDays n T).Nodup := by
  unfold setStreakDays
  refine (List.nodup_range n).map ?_
  intro a b hab
  simp only at hab
  omega

theorem hasCompleted_cleared {db : DB} {u : Int} {n : Nat} {T d : Int}
    (hd : T - n ≤ d) (hd2 : d ≤ T) :
    hasCompleted (setStreakCleared db u n T) u d = false := by
  unfold setStreakCleared hasCompleted
  rw [← Bool.not_eq_true, List.any_eq_true]
  rintro ⟨c, hc, hpred⟩
  rw [List.mem_filter] at hc
  obtain ⟨hcmem, hkeep⟩ := hc
  simp only [Bool.and_eq_true, beq_iff_eq] at hpred
  obtain ⟨hcu, hcd⟩ := hpred
  have hin : (c.userId == u && decide (T - (n : Int) ≤ c.day) &&
      decide (c.day ≤ T)) = true := by
    subst hcd
    simp [hcu, hd, hd2]
  rw [hin] at hkeep
  exact absurd hkeep (by simp)

theorem cleared_filter_below {db : DB} {u : Int} {n : Nat} {T d : Int}
    (hd : d < T - n) :
    (setStreakCleared db u n T).completions.filter
        (fun c => c.userId == u && c.day == d) =
      db.completions.filter fun c => c.userId == u && c.day == d := by
  unfold setStreakCleared
  show (db.completions.filter _).filter _ = _
  rw [List.filter_filter]
  apply List.filter_congr
  intro c hc
  by_cases hkey : (c.userId == u && c.day == d) = true
  · rw [hkey, Bool.true_and]
    simp only [Bool.and_eq_true, beq_iff_eq] at hkey
    have hB : decide (T - (n : Int) ≤ c.day) = false := by
      rw [decide_eq_false_iff_not]
      omega
    rw [hB]
    simp
  · have hk : (c.userId == u && c.day == d) = false := Bool.not_eq_true _ ▸ hkey
    rw [hk]
    simp

theorem insertCompletions_spec {u : Int} {note : String} :
    ∀ (ds : List Int) (db : DB), ds.Nodup →
      (∀ d ∈ ds, hasCompleted db u d = false) →
      insertCompletions u note db ds =
        ({ db with completions :=
            db.completions ++ ds.map (fun d => ⟨u, d, note⟩) }, true) := by
  intro ds
  induction ds with
  | nil =>
    intro db _ _
    show (db, true) = _
    simp
  | cons d rest ih =>
    intro db hnd hall
    unfold insertCompletions
    rw [if_neg (by simp [hall d (List.mem_cons_self d rest)])]
    rw [ih _ (List.Nodup.of_cons hnd) ?_]
    · simp [List.append_assoc]
    · intro d2 hd2
      unfold hasCompleted
      rw [List.any_append]
      have h1 : hasCompleted db u d2 = false := hall d2 (List.mem_cons_of_mem d hd2)
      unfold hasCompleted at h1
      rw [h1, Bool.false_or]
      have hne : d ≠ d2 := by
        intro hEq
        subst hEq
        exact (List.nodup_cons.mp hnd).1 hd2
      simp [hne]

theorem setStreakInserted_spec {db : DB} {u : Int} {n : Nat} {T : Int}
    {note : String} :
    setStreakInserted db u n T note =
      ({ setStreakCleared db u n T with completions :=
          (setStreakCleared db u n T).completions ++ (setStreakDays n T).map (fun d => (⟨u, d, note⟩ : Completion)) }, true) := by
  unfold setStreakInserted
  apply insertCompletions_spec
  · exact setStreakDays_nodup n T
  · intro d hd
    rw [mem_setStreakDays] at hd
    exact hasCompleted_cleared (by omega) hd.2

theorem getIndividualStreak_congr {db1 db2 : DB}
    (h : db1.completions = db2.completions) (u T : Int) :
    getIndividualStreak db1 u T = getIndividualStreak db2 u T := by
  have hhc : ∀ d : Int, hasCompleted db1 u d = hasCompleted db2 u d := by
    intro d
    unfold hasCompleted
    rw [h]
  unfold getIndividualStreak streakFuel
  rw [h, hhc T]
  congr 1
  congr 1
  funext d
  exact hhc d

theorem hasCompleted_false_iff {db : DB} {u d : Int} :
    hasCompleted db u d = false ↔
      ∀ c ∈ db.completions, ¬(c.userId = u ∧ c.day = d) := by
  rw [← Bool.not_eq_true, hasCompleted_iff]
  simp

theorem hasCompleted_setStreak_mem {db : DB} {u : Int} {n : Nat} {T d : Int}
    {note : String} (hd1 : T - n < d) (hd2 : d ≤ T) :
    hasCompleted (setStreakInserted db u n T note).1 u d = true := by
  rw [setStreakInserted_spec]
  rw [hasCompleted_iff]
  refine ⟨⟨u, d, note⟩, ?_, rfl, rfl⟩
  show _ ∈ (setStreakCleared db u n T).completions ++ _
  rw [List.mem_append]
  right
  exact List.mem_map.mpr ⟨d, mem_setStreakDays.mpr ⟨hd1, hd2⟩, rfl⟩

theorem hasCompleted_setStreak_gap {db : DB} {u : Int} {n : Nat} {T : Int}
    {note : String} :
    hasCompleted (setStreakInserted db u n T note).1 u (T - n) = false := by
  rw [setStreakInserted_spec]
  rw [hasCompleted_false_iff]
  intro c hc hpred
  simp only [List.mem_append] at hc
  cases hc with
  | inl h1 =>
    exact hasCompleted_false_iff.mp
      (hasCompleted_cleared (by omega) (by omega)) c h1 hpred
  | inr h2 =>
    obtain ⟨x, hx, rfl⟩ := List.mem_map.mp h2
    have hxw := mem_setStreakDays.mp hx
    have hxd : x = T - n := hpred.2
    omega

theorem setStreak_filter_window {db : DB} {u : Int} {n : Nat} {T d : Int}
    {note : String} (hd1 : T - n < d) (hd2 : d ≤ T) :
    ((setStreakInserted db u n T note).1.completions.filter
      fun c => c.userId == u && c.day == d).length = 1 := by
  rw [setStreakInserted_spec]
  show (((setStreakCleared db u n T).completions ++
    (setStreakDays n T).map (fun x => (⟨u, x, note⟩ : Completion))).filter
      (fun c => c.userId == u && c.day == d)).length = 1
  rw [List.filter_append]
  have h1 : (setStreakCleared db u n T).completions.filter
      (fun c => c.userId == u && c.day == d) = [] := by
    rw [List.filter_eq_nil_iff]
    intro c hc hpred
    simp only [Bool.and_eq_true, beq_iff_eq] at hpred
    exact hasCompleted_false_iff.mp
      (hasCompleted_cleared (by omega) hd2) c hc hpred
  rw [h1, List.nil_append, List.filter_map, List.length_map]
  have hco : (setStreakDays n T).filter
      ((fun c => c.userId == u && c.day == d) ∘
        fun x => (⟨u, x, note⟩ : Completion)) =
      (setStreakDays n T).filter fun x => x == d := by
    apply List.filter_congr
    intro x hx
    simp [Function.comp]
  rw [hco, ← List.countP_eq_length_filter, ← List.count_eq_countP]
  exact List.count_eq_one_of_mem (setStreakDays_nodup n T)
    (mem_setStreakDays.mpr ⟨hd1, hd2⟩)

theorem setStreak_filter_below {db : DB} {u : Int} {n : Nat} {T d : Int}
    {note : String} (hd : d < T - n) :
    (setStreakInserted db u n T note).1.completions.filter
        (fun c => c.userId == u && c.day == d) =
      db.completions.filter fun c => c.userId == u && c.day == d := by
  rw [setStreakInserted_spec]
  show ((setStreakCleared db u n T).completions ++
    (setStreakDays n T).map (fun x => (⟨u, x, note⟩ : Completion))).filter
      (fun c => c.userId == u && c.day == d) = _
  rw [List.filter_append]
  have h2 : ((setStreakDays n T).map fun x => (⟨u, x, note⟩ : Completion)).filter
      (fun c => c.userId == u && c.day == d) = [] := by
    rw [List.filter_eq_nil_iff]
    intro c hc hpred
    obtain ⟨x, hx, rfl⟩ := List.mem_map.mp hc
    simp only [Bool.and_eq_true, beq_iff_eq] at hpred
    have hxw := mem_setStreakDays.mp hx
    omega
  rw [h2, List.append_nil, cleared_filter_below hd]

theorem setStreak_streak_eq {db : DB} {u : Int} {n : Nat} {T : Int}
    {note : String} (hn : 1 ≤ n) :
    getIndividualStreak (setStreakInserted db u n T note).1 u T = n := by
  have hrun : ∀ i : Nat, i < n - 1 →
      hasCompleted (setStreakInserted db u n T note).1 u (T - 1 - i) = true := by
    intro i hi
    exact hasCompleted_setStreak_mem (by omega) (by omega)
  have hgapEq : T - 1 - ((n - 1 : Nat) : Int) = T - n := by omega
  have hgap : hasCompleted (setStreakInserted db u n T note).1 u
      (T - 1 - ((n - 1 : Nat) : Int)) = false := by
    rw [hgapEq]
    exact hasCompleted_setStreak_gap
  have hstep := getIndividualStreak_eq_run (setStreakInserted db u n T note).1
    u T (n - 1) hrun hgap
  rw [hstep, if_pos (hasCompleted_setStreak_mem (by omega) (le_refl T))]
  omega

/-- SetUserStreak on a registered user succeeds, and its final database has
the completions of the insert phase (the achievement check touches only the
achievements table). -/
theorem setUserStreak_ok {db : DB} {u : Int} {n : Nat} {T : Int}
    {note : String} (hu : userExists db u = true) :
    (SetUserStreak db u n T note).res = .ok ∧
    (SetUserStreak db u n T note).db.completions =
      (setStreakInserted db u n T note).1.completions ∧
    (SetUserStreak db u n T note).db.botState = db.botState := by
  have hins : (setStreakInserted db u n T note).2 = true := by
    rw [setStreakInserted_spec]
  have hp : (setStreakInserted db u n T note).1.participants =
      db.participants := by
    rw [setStreakInserted_spec]
    rfl
  have herr : (achAfterSet db u n T note).err = false := by
    unfold achAfterSet
    apply checkAndRecord_err_false
    rw [userExists_congr hp u]
    exact hu
  have hbs : (setStreakInserted db u n T note).1.botState = db.botState := by
    rw [setStreakInserted_spec]
    rfl
  unfold SetUserStreak
  rw [if_neg (by simp [hu]), if_neg (by simp [hins])]
  refine ⟨?_, ?_, ?_⟩
  · show (if (achAfterSet db u n T note).err
      then SetStreakResult.storeError else .ok) = .ok
    rw [herr]
    simp
  · show (achAfterSet db u n T note).db.completions = _
    unfold achAfterSet
    exact (checkAndRecord_sameExceptAch _ _ _ _).2.1
  · show (achAfterSet db u n T note).db.botState = db.botState
    unfold achAfterSet
    exact ((checkAndRecord_sameExceptAch _ _ _ _).2.2.1).trans hbs

/-- C10: right after a successful administrative streak-set of n >= 1 days
for a registered user, all evaluated within one calendar day T: the
operation reports success, the user's individual streak is exactly n, day
T - n carries the guaranteed gap (no completion for the user), each of the
n days T - n + 1 .. T carries exactly one completion row for the user, and
the user's completions on days before T - n are unchanged. -/
theorem claim_C10_set_user_streak (db : DB) (u : Int) (n : Nat) (T : Int)
    (note : String) (hu : userExists db u = true) (hn : 1 ≤ n) :
    (SetUserStreak db u n T note).res = .ok ∧
    getIndividualStreak (SetUserStreak db u n T note).db u T = n ∧
    hasCompleted (SetUserStreak db u n T note).db u (T - n) = false ∧
    (∀ d : Int, T - n < d → d ≤ T →
      ((SetUserStreak db u n T note).db.completions.filter
        fun c => c.userId == u && c.day == d).length = 1) ∧
    (∀ d : Int, d < T - n →
      (SetUserStreak db u n T note).db.completions.filter
          (fun c => c.userId == u && c.day == d) =
        db.completions.filter fun c => c.userId == u && c.day == d) := by
  obtain ⟨hres, hcomp, -⟩ := @setUserStreak_ok db u n T note hu
  refine ⟨hres, ?_, ?_, ?_, ?_⟩
  · rw [getIndividualStreak_congr hcomp u T]
    exact setStreak_streak_eq hn
  · show hasCompleted _ u (T - n) = false
    unfold hasCompleted
    rw [hcomp]
    exact hasCompleted_setStreak_gap
  · intro d hd1 hd2
    rw [hcomp]
    exact setStreak_filter_window hd1 hd2
  · intro d hd
    rw [hcomp]
    exact setStreak_filter_below hd

/-- Witness for C10: setting a 3-day streak for the registered scenario user
as of day 20. -/
theorem claim_C10_witness :
    (SetUserStreak scenarioIndividualDB 1 3 20 "go").res = SetStreakResult.ok ∧
    getIndividualStreak (SetUserStreak scenarioIndividualDB 1 3 20 "go").db 1 20 = 3 ∧
    hasCompleted (SetUserStreak scenarioIndividualDB 1 3 20 "go").db 1 17 = false ∧
    (∀ d : Int, (20 : Int) - 3 < d → d ≤ 20 →
      ((SetUserStreak scenarioIndividualDB 1 3 20 "go").db.completions.filter
        fun c => c.userId == 1 && c.day == d).length = 1) ∧
    (∀ d : Int, d < (20 : Int) - 3 →
      (SetUserStreak scenarioIndividualDB 1 3 20 "go").db.completions.filter
          (fun c => c.userId == 1 && c.day == d) =
        scenarioIndividualDB.completions.filter
          fun c => c.userId == 1 && c.day == d) :=
  claim_C10_set_user_streak scenarioIndividualDB 1 3 20 "go"
    (by decide) (by decide)

/-! ### Claim theorems: the custom-streak conversation -/

theorem handleCustomStreakInput_noPending {db : DB} {u chat : Int}
    {text : String} {T : Int} {note : String}
    (h : findCustomStreakState db u chat = none) :
    handleCustomStreakInput db u chat text T note = ⟨db, .noPending, []⟩ := by
  unfold handleCustomStreakInput
  rw [h]

theorem nodup_keys_filter_append {α β : Type} [DecidableEq β] (l : List α)
    (key : α → β) (p : α → Bool) (u : β)
    (h : (l.map key).Nodup) (hp : ∀ a ∈ l, p a = true → key a ≠ u) :
    ((l.filter p).map key ++ [u]).Nodup := by
  rw [List.nodup_append]
  refine ⟨List.Nodup.sublist ((List.filter_sublist _).map _) h,
    List.nodup_singleton _, ?_⟩
  intro x hx hx2
  simp only [List.mem_singleton] at hx2
  subst hx2
  rw [List.mem_map] at hx
  obtain ⟨a, ha, hkey⟩ := hx
  rw [List.mem_filter] at ha
  exact hp a ha.1 ha.2 hkey

theorem convUnique_congr {db1 db2 : DB} (h1 : db1.botState = db2.botState)
    (h2 : db1.pendingJoins = db2.pendingJoins) :
    ConvUnique db1 ↔ ConvUnique db2 := by
  unfold ConvUnique
  rw [h1, h2]

theorem setUserStreak_conv_frame (db : DB) (u : Int) (n : Nat) (T : Int)
    (note : String) :
    (SetUserStreak db u n T note).db.botState = db.botState ∧
    (SetUserStreak db u n T note).db.pendingJoins = db.pendingJoins := by
  have h1 : (setStreakInserted db u n T note).1.botState = db.botState := by
    rw [setStreakInserted_spec]
    rfl
  have h2 : (setStreakInserted db u n T note).1.pendingJoins =
      db.pendingJoins := by
    rw [setStreakInserted_spec]
    rfl
  unfold SetUserStreak
  by_cases hu : userExists db u
  · rw [if_neg (by simp [hu])]
    by_cases hins : (setStreakInserted db u n T note).2
    · rw [if_neg (by simp [hins])]
      constructor
      · show (achAfterSet db u n T note).db.botState = _
        unfold achAfterSet
        exact ((checkAndRecord_sameExceptAch _ _ _ _).2.2.1).trans h1
      · show (achAfterSet db u n T note).db.pendingJoins = _
        unfold achAfterSet
        exact ((checkAndRecord_sameExceptAch _ _ _ _).2.2.2).trans h2
    · rw [if_pos (by simp [hins])]
      exact ⟨h1, h2⟩
  · rw [if_pos (by simp [hu])]
    exact ⟨rfl, rfl⟩

theorem customStreakCallback_overwrites (db : DB) (u chat target : Int) :
    findCustomStreakState (handleCustomStreakCallback db u chat target) u chat =
      some ⟨u, chat, "waiting_custom_streak", target⟩ := by
  unfold findCustomStreakState handleCustomStreakCallback
  rw [List.find?_append]
  have hnone : (db.botState.filter
      fun s => !(s.userId == u && s.chatId == chat)).find?
        (fun s => s.userId == u && s.chatId == chat &&
          s.state == "waiting_custom_streak") = none := by
    rw [List.find?_eq_none]
    intro s hs hpred
    rw [List.mem_filter] at hs
    simp only [Bool.and_eq_true, beq_iff_eq] at hpred
    have := hs.2
    rw [hpred.1.1, hpred.1.2] at this
    simp at this
  rw [hnone]
  simp

/-- C6 (amended) : per conversation kind, key-uniqueness and
last-writer-wins hold: bot_state keeps at most one row per (user, chat)
with a new custom-streak conversation overwriting the old one, and
pending_joins keeps at most one row per user — every conversation-touching
handler preserves both — but the two kinds are stored in different tables,
so a pending join and a pending custom-streak input for the very same
(user, chat) can coexist. -/
theorem claim_C6_conversation_keys (db : DB) (h : ConvUnique db)
    (u chat target : Int) (un dn text note : String) (now T : Int) :
    ConvUnique (handleJoinChallenge db u chat) ∧
    ConvUnique (handleNameResponse db u chat un dn now) ∧
    ConvUnique (handleCustomStreakCallback db u chat target) ∧
    ConvUnique (handleCustomStreakInput db u chat text T note).db ∧
    findCustomStreakState (handleCustomStreakCallback db u chat target) u chat =
      some ⟨u, chat, "waiting_custom_streak", target⟩ ∧
    hasPendingJoin
      (handleCustomStreakCallback (handleJoinChallenge db u chat) u chat target)
      u chat = true ∧
    hasCustomPending
      (handleCustomStreakCallback (handleJoinChallenge db u chat) u chat target)
      u chat = true := by
  refine ⟨⟨h.1, ?_⟩, ⟨h.1, List.Nodup.sublist ((List.filter_sublist _).map _) h.2⟩,
    ⟨?_, h.2⟩, ?_, customStreakCallback_overwrites db u chat target, ?_, ?_⟩
  · show (((db.pendingJoins.filter fun (pj : PendingJoin) => !(pj.userId == u)) ++
      [(⟨u, chat⟩ : PendingJoin)]).map fun (pj : PendingJoin) => pj.userId).Nodup
    rw [List.map_append]
    refine nodup_keys_filter_append _ _ _ _ h.2 ?_
    intro a _ hpa hk
    rw [hk] at hpa
    simp at hpa
  · show (((db.botState.filter
        fun (s : BotState) => !(s.userId == u && s.chatId == chat)) ++
      [(⟨u, chat, "waiting_custom_streak", target⟩ : BotState)]).map
        fun (s : BotState) => (s.userId, s.chatId)).Nodup
    rw [List.map_append]
    refine nodup_keys_filter_append _ _ _ ((u, chat) : Int × Int) h.1 ?_
    intro a _ hpa hk
    rw [Prod.mk.injEq] at hk
    rw [hk.1, hk.2] at hpa
    simp at hpa
  · cases hfind : findCustomStreakState db u chat with
    | none =>
      rw [handleCustomStreakInput_noPending hfind]
      exact h
    | some st =>
      cases hparse : atoiTrim text with
      | none =>
        unfold handleCustomStreakInput
        simp only [hfind, hparse]
        exact h
      | some days =>
        unfold handleCustomStreakInput
        simp only [hfind, hparse]
        by_cases hneg : days < 0
        · rw [if_pos hneg]
          exact h
        · rw [if_neg hneg]
          have hframe := setUserStreak_conv_frame db st.context days.toNat T note
          by_cases hres : ((SetUserStreak db st.context days.toNat T note).res !=
              SetStreakResult.ok) = true
          · rw [if_pos hres]
            exact (convUnique_congr hframe.1 hframe.2).mpr h
          · rw [if_neg hres]
            constructor
            · show (((SetUserStreak db st.context days.toNat T note).db.botState.filter
                fun s => !(s.userId == u && s.chatId == chat)).map
                  fun s => (s.userId, s.chatId)).Nodup
              rw [hframe.1]
              exact List.Nodup.sublist ((List.filter_sublist _).map _) h.1
            · show ((SetUserStreak db st.context days.toNat T note).db.pendingJoins.map
                fun pj => pj.userId).Nodup
              rw [hframe.2]
              exact h.2
  · unfold hasPendingJoin
    rw [List.any_eq_true]
    refine ⟨⟨u, chat⟩, ?_, by simp⟩
    show _ ∈ (handleJoinChallenge db u chat).pendingJoins
    unfold handleJoinChallenge
    rw [List.mem_append]
    right
    exact List.mem_singleton.mpr rfl
  · unfold hasCustomPending
    rw [customStreakCallback_overwrites (handleJoinChallenge db u chat) u chat target]
    rfl

/-- Witness for C6: the amended key discipline checked on the fresh database
for user 1 in chat 10. -/
theorem claim_C6_witness :
    ConvUnique (handleJoinChallenge emptyDB 1 10) ∧
    ConvUnique (handleNameResponse emptyDB 1 10 "alice" "Alice" 1) ∧
    ConvUnique (handleCustomStreakCallback emptyDB 1 10 2) ∧
    ConvUnique (handleCustomStreakInput emptyDB 1 10 "4" 20 "msg").db ∧
    findCustomStreakState (handleCustomStreakCallback emptyDB 1 10 2) 1 10 =
      some ⟨1, 10, "waiting_custom_streak", 2⟩ ∧
    hasPendingJoin
      (handleCustomStreakCallback (handleJoinChallenge emptyDB 1 10) 1 10 2)
      1 10 = true ∧
    hasCustomPending
      (handleCustomStreakCallback (handleJoinChallenge emptyDB 1 10) 1 10 2)
      1 10 = true :=
  claim_C6_conversation_keys emptyDB (by unfold ConvUnique; decide)
    1 10 2 "alice" "Alice" "4" "msg" 1 20

/-- C6 counterexample: the modelled operations reach, from the fresh
database, a state in which user 1 in chat 10 has BOTH a pending join and a
pending custom-streak conversation, because the two flows live in
different tables (pending_joins and bot_state) and neither handler clears
the other; so it is not true that at most one outstanding multi-step
conversation exists per (userId, chatId). -/
theorem claim_C6_counterexample :
    ¬ (∀ db : DB, Reachable db → ∀ u chat : Int,
        ¬(hasPendingJoin db u chat = true ∧ hasCustomPending db u chat = true)) := by
  intro h
  exact h (handleCustomStreakCallback (handleJoinChallenge emptyDB 1 10) 1 10 2)
    (Reachable.customCb _ 1 10 2 (Reachable.join _ 1 10 Reachable.init))
    1 10 ⟨by decide, by decide⟩

/-- C7 counterexample: participant 1 first joined on day 1, but after a
re-registration through the join flow on day 5 the stored joinedAt is 5,
not 1 — INSERT OR REPLACE rewrites the whole row and the unlisted
joined_at column takes its DEFAULT CURRENT_TIMESTAMP again. -/
theorem claim_C7_counterexample :
    ((handleNameResponse scenarioRejoinDB 1 10 "alice" "Alice" 5).participants.find?
        fun p => p.userId == 1).map (fun p => p.joinedAt) = some 5 ∧
    ((scenarioRejoinDB.participants.find? fun p => p.userId == 1).map
        fun p => p.joinedAt) = some 1 ∧
    some (5 : Int) ≠ some (1 : Int) := by
  refine ⟨by decide, by decide, by decide⟩

/-- C7 (amended): re-registration through the join flow replaces the whole
participants row: username, chatId and displayName are overwritten as the
spec says, and joinedAt is reset to the day of the re-registration rather
than kept from the first join; other users' rows are untouched. -/
theorem claim_C7_rejoin_replaces_row (db : DB) (u chat : Int)
    (un dn : String) (now : Int) :
    (handleNameResponse db u chat un dn now).participants.filter
        (fun p => p.userId == u) = [⟨u, un, chat, some dn, now⟩] ∧
    (handleNameResponse db u chat un dn now).participants.filter
        (fun p => !(p.userId == u)) =
      db.participants.filter fun p => !(p.userId == u) := by
  constructor
  · show ((db.participants.filter fun (p : Participant) => !(p.userId == u)) ++
      [(⟨u, un, chat, some dn, now⟩ : Participant)]).filter
        (fun p => p.userId == u) = _
    rw [List.filter_append, List.filter_filter]
    have h1 : db.participants.filter
        (fun a => (a.userId == u) && !(a.userId == u)) = [] := by
      rw [List.filter_eq_nil_iff]
      intro a _
      cases hau : a.userId == u <;> simp [hau]
    rw [h1, List.nil_append]
    simp
  · show ((db.participants.filter fun (p : Participant) => !(p.userId == u)) ++
      [(⟨u, un, chat, some dn, now⟩ : Participant)]).filter
        (fun p => !(p.userId == u)) = _
    rw [List.filter_append, List.filter_filter]
    have h2 : ([(⟨u, un, chat, some dn, now⟩ : Participant)].filter
        fun p => !(p.userId == u)) = [] := by
      simp
    rw [h2, List.append_nil]
    apply List.filter_congr
    intro a _
    cases hau : a.userId == u <;> simp [hau]

/-- Witness for the amended C7 at a concrete re-registration on day 5. -/
theorem claim_C7_witness :
    (handleNameResponse scenarioRejoinDB 1 10 "alice2" "Alice" 5).participants.filter
        (fun p => p.userId == 1) = [⟨1, "alice2", 10, some "Alice", 5⟩] ∧
    (handleNameResponse scenarioRejoinDB 1 10 "alice2" "Alice" 5).participants.filter
        (fun p => !(p.userId == 1)) =
      scenarioRejoinDB.participants.filter fun p => !(p.userId == 1) :=
  claim_C7_rejoin_replaces_row scenarioRejoinDB 1 10 "alice2" "Alice" 5

end Zaryadochka
